import Mathlib

/-!
Verification development for the pastemax directory ingestion engine
(`main.js`) and its content formatter (`utils/contentFormatUtils.ts`,
shipped concatenated after `main.js` in this repository snapshot).

The JavaScript/TypeScript sources are shallowly embedded as pure Lean
functions.  Conventions used throughout:

* JS strings are Lean `String`s (sequences of characters; the model does
  not distinguish UTF-16 code units from code points).
* `toLowerCase`/`toUpperCase` are modelled by ASCII case mapping
  (`Char.toLower`/`Char.toUpper`), which agrees with JS on ASCII data.
* Fallible filesystem calls (`fs.promises.stat`, `fs.promises.readFile`,
  `fs.promises.readdir`) are `Except JsError _` values stored in the
  modelled filesystem tree: the model is parametric in what the disk
  answers.
* The shared mutable flag `isLoadingDirectory` is modelled by a logical
  clock: every read of the flag consumes one clock tick, and a cancel
  request arriving "at time t" makes every read from tick t on return
  false (`tick` below).  The concurrent `Promise.all` chunk is
  serialized in enumeration order, one admissible schedule.
* External library behaviour that the repository only calls
  (the `ignore` matcher, the tiktoken encoder, chokidar delivery, the
  renderer path helpers) is passed in as opaque function parameters, and
  the contents of `excluded-files.js` (not part of the staged sources)
  are a `List String` parameter, modelled from the spec: a static
  binary-extension set and a static exclusion list.
-/

/-! ## Character and string helpers (Node `path` / JS string methods) -/

/-- ASCII lower-casing of a string, modelling JS `toLowerCase` on ASCII. -/
def jsToLower (s : String) : String := String.mk (s.data.map Char.toLower)

/-- ASCII upper-casing of a string, modelling JS `toUpperCase` on ASCII. -/
def jsToUpper (s : String) : String := String.mk (s.data.map Char.toUpper)

/-- `normalizePath` from `main.js` lines 21-31: rewrite every backslash to a
forward slash.  The model fixes `process.platform` to linux, so the Windows
UNC branch is dead code here. -/
def normalizePath (p : String) : String :=
  String.mk (p.data.map (fun c => if c = '\\' then '/' else c))

/-- Characters of the last path component, scanning the reversed character
list up to the first separator. -/
def takeUntilSlashRev : List Char → List Char
  | [] => []
  | c :: rest => if c = '/' then [] else c :: takeUntilSlashRev rest

/-- Node `path.basename` on an already slash-normalized path without a
trailing separator (the only way the sources call it). -/
def basenameOf (p : String) : String :=
  String.mk ((takeUntilSlashRev p.data.reverse).reverse)

/-- Split a character list at its first `'.'`: `some (before, after)`, or
`none` when there is no dot. -/
def splitAtFirstDot : List Char → Option (List Char × List Char)
  | [] => none
  | c :: rest =>
    if c = '.' then some ([], rest)
    else
      match splitAtFirstDot rest with
      | none => none
      | some (pre, post) => some (c :: pre, post)

/-- Node `path.extname`: the extension of the last path component from its
last dot (inclusive); empty when there is no dot or the dot starts the
component (dotfiles), and empty for the special component `..`. -/
def extnameOf (p : String) : String :=
  let b := basenameOf p
  if b = ".." then ""
  else
    match splitAtFirstDot b.data.reverse with
    | none => ""
    | some (afterRev, beforeRev) =>
      if beforeRev = [] then ""
      else String.mk ('.' :: afterRev.reverse)

/-- Does the string start with `".."`?  (JS `relativePath.startsWith('..')`.) -/
def startsWithDotDot (s : String) : Bool :=
  match s.data with
  | '.' :: '.' :: _ => true
  | _ => false

/-- Does the character list contain the substring `".app/"`? -/
def hasAppSlash : List Char → Bool
  | '.' :: 'a' :: 'p' :: 'p' :: '/' :: _ => true
  | _ :: rest => hasAppSlash rest
  | [] => false

/-- Does the reversed character list witness that the string ends in `".app"`? -/
def endsAppRev : List Char → Bool
  | 'p' :: 'p' :: 'a' :: '.' :: _ => true
  | _ => false

/-- The regular expression test `/\.app($|\/)/.test(fullPath)` from
`main.js` lines 451 and 485. -/
def isAppBundlePath (p : String) : Bool :=
  hasAppSlash p.data || endsAppRev p.data.reverse

/-- Remove every (leftmost, non-overlapping) occurrence of the sentinel
`<|endoftext|>`, as the JS global-regex replace does. -/
def stripSentinelAux : List Char → List Char
  | '<' :: '|' :: 'e' :: 'n' :: 'd' :: 'o' :: 'f' :: 't' :: 'e' :: 'x' :: 't' :: '|' :: '>' :: rest =>
    stripSentinelAux rest
  | c :: rest => c :: stripSentinelAux rest
  | [] => []

/-- `text.replace(/<\|endoftext\|>/g, '')` from `countTokens`. -/
def cleanText (s : String) : String := String.mk (stripSentinelAux s.data)

/-! ## Errors, records and the scan context -/

/-- A thrown Node error, carrying the `code` the source inspects and the
`message` it interpolates. -/
structure JsError where
  code : String
  message : String
deriving Repr, DecidableEq

/-- A file record as built by `readFilesRecursively` / `processSingleFile`.
Fields the source leaves `undefined` on some branches are `Option`s. -/
structure FileRecord where
  name : String
  path : String
  relativePath : String
  size : Nat
  content : String
  tokenCount : Nat
  isBinary : Bool
  isSkipped : Bool
  fileType : Option String := none
  error : Option String := none
  excludedByDefault : Option Bool := none
deriving Repr, DecidableEq

/-- The serializable shape sent as `file-list-data` (`main.js` lines 642-655). -/
structure SerializedFile where
  path : String
  relativePath : String
  name : String
  size : Nat
  extension : String
  excluded : Bool
  content : String
  tokenCount : Nat
  isBinary : Bool
  isSkipped : Bool
  error : Option String
deriving Repr, DecidableEq

/-- Messages sent to the renderer over IPC. -/
inductive Msg where
  | fps (status : String) (message : String)
  | fileListData (files : List SerializedFile)
  | fileAdded (r : FileRecord)
  | fileUpdated (r : FileRecord)
  | fileRemoved (p : String)
deriving Repr, DecidableEq

/-- The ambient context of one scan/watch session.  `ign` is the compiled
ignore matcher applied to a root-relative path; `encoder` is the tiktoken
encoder when initialized (`none` models both a missing tiktoken module and a
failed `get_encoding`), returning `none` on a throwing `encode` call;
`binExts` is the `binaryExtensions` list of `excluded-files.js` (modelled
from the spec: a static binary-extension set, absent from the staged
sources); `shouldExcl` is `shouldExcludeByDefault` at the session root.  The flag
polling is parameterized separately: the functions below take a `cancelAt :
Option Nat`, the clock tick from which `isLoadingDirectory` reads false. -/
structure ScanCtx where
  binExts : List String
  encoder : Option (String → Option (List Nat))
  ign : String → Bool
  shouldExcl : String → Bool
  appPath : String

/-- `MAX_FILE_SIZE` from `main.js` line 156. -/
def MAX_FILE_SIZE : Nat := 5 * 1024 * 1024

/-- One read of the `isLoadingDirectory` flag: its value at the current
clock, and the advanced clock. -/
def tick (cancelAt : Option Nat) (clk : Nat) : Bool × Nat :=
  (match cancelAt with
   | none => true
   | some t => decide (clk < t), clk + 1)

/-! ## Token counting (`countTokens`, `main.js` lines 389-405) -/

/-- `countTokens`: primary path encodes the sentinel-stripped text and takes
the token array length; the fallback `ceil(text.length / 4)` is used when the
encoder is unavailable or its `encode` throws. -/
def countTokens (encoder : Option (String → Option (List Nat))) (text : String) : Nat :=
  match encoder with
  | none => (text.length + 3) / 4
  | some enc =>
    match enc (cleanText text) with
    | some tokens => tokens.length
    | none => (text.length + 3) / 4

/-! ## Binary classification -/

/-- `isBinaryFile` (`main.js` lines 382-386): the lower-cased extension of
the path, dot included, is looked up in `binaryExtensions`. -/
def isBinaryFile (binExts : List String) (filePath : String) : Bool :=
  binExts.contains (jsToLower (extnameOf filePath))

/-! ## The watcher single-file pipeline (`processSingleFile`, lines 215-286) -/

/-- `processSingleFile fullPath rootDir ignoreFilter` with the relative path
already computed (`safeRelativePath rootDir fullPath` in the source — both
call sites and the model feed the same value), and the outcomes of this
file's `stat` and `readFile` calls supplied by the modelled disk.  Returns
`none` where the source returns `null`. -/
def processSingleFile (ctx : ScanCtx) (fullPath relativePath : String)
    (statResult : Except JsError Nat) (readResult : Except JsError String) :
    Option FileRecord :=
  if startsWithDotDot relativePath then none
  else if ctx.ign relativePath then none
  else
    match statResult with
    | .error e =>
      some { name := basenameOf fullPath
             path := normalizePath fullPath
             relativePath := relativePath
             size := 0
             content := ""
             tokenCount := 0
             isBinary := false
             isSkipped := true
             error := some ("Error: " ++ e.message)
             excludedByDefault := some (ctx.shouldExcl fullPath) }
    | .ok size =>
      if size > MAX_FILE_SIZE then
        some { name := basenameOf fullPath
               path := normalizePath fullPath
               relativePath := relativePath
               size := size
               content := ""
               tokenCount := 0
               isBinary := false
               isSkipped := true
               error := some "File too large to process"
               excludedByDefault := some (ctx.shouldExcl fullPath) }
      else
        let ext := jsToLower ((extnameOf fullPath).drop 1)
        if ctx.binExts.contains ext then
          some { name := basenameOf fullPath
                 path := normalizePath fullPath
                 relativePath := relativePath
                 size := size
                 content := ""
                 tokenCount := 0
                 isBinary := true
                 isSkipped := false
                 fileType := some (jsToUpper ext)
                 excludedByDefault := some (ctx.shouldExcl fullPath) }
        else
          match readResult with
          | .error e =>
            some { name := basenameOf fullPath
                   path := normalizePath fullPath
                   relativePath := relativePath
                   size := 0
                   content := ""
                   tokenCount := 0
                   isBinary := false
                   isSkipped := true
                   error := some ("Error: " ++ e.message)
                   excludedByDefault := some (ctx.shouldExcl fullPath) }
          | .ok content =>
            some { name := basenameOf fullPath
                   path := normalizePath fullPath
                   relativePath := relativePath
                   size := size
                   content := content
                   tokenCount := countTokens ctx.encoder content
                   isBinary := false
                   isSkipped := false
                   excludedByDefault := some (ctx.shouldExcl fullPath) }

/-! ## The modelled filesystem and the scanner
(`readFilesRecursively`, `main.js` lines 423-579) -/

/-- One file on the modelled disk: its directory-entry name and what its
`stat` and `readFile` calls answer. -/
structure FileNode where
  name : String
  statResult : Except JsError Nat
  readResult : Except JsError String
deriving Repr

mutual
/-- A directory entry: a file, or a subdirectory with its name and body. -/
inductive FSEntry where
  | file : FileNode → FSEntry
  | dir : String → FSDir → FSEntry

/-- A directory body: what `fs.promises.readdir` answers for it. -/
inductive FSDir where
  | readErr : JsError → FSDir
  | entries : FSList → FSDir

/-- A list of directory entries in `readdir` order. -/
inductive FSList where
  | nil : FSList
  | cons : FSEntry → FSList → FSList
end

/-- The file dirents of a directory listing, in order (`dirents.filter
(dirent => dirent.isFile())`). -/
def filesOf : FSList → List FileNode
  | .nil => []
  | .cons (.file f) rest => f :: filesOf rest
  | .cons (.dir _ _) rest => filesOf rest

/-- `CHUNK_SIZE` from `main.js` line 433. -/
def CHUNK_SIZE : Nat := 20

/-- Grouping helper: `acc` is the current chunk so far (reversed), `k` the
remaining capacity of that chunk. -/
def chunksAux (acc : List FileNode) : Nat → List FileNode → List (List FileNode)
  | _, [] => [acc.reverse]
  | 0, x :: xs => acc.reverse :: chunksAux [x] (CHUNK_SIZE - 1) xs
  | k + 1, x :: xs => chunksAux (x :: acc) k xs

/-- The file list cut into chunks of `CHUNK_SIZE`
(`files.slice(i, i + CHUNK_SIZE)` per loop iteration). -/
def chunksOf : List FileNode → List (List FileNode)
  | [] => []
  | x :: xs => chunksAux [x] (CHUNK_SIZE - 1) xs

/-- The per-file task inside a chunk (`main.js` lines 477-557): flag check,
path admission checks, ignore check, then stat / size ceiling / binary
extension / read / token count, with the per-file catch turning a thrown
stat or read into a skipped record.  Returns the task value (`null` as
`none`) and the advanced clock. -/
def chunkFileTask (ctx : ScanCtx) (cancelAt : Option Nat)
    (dirPath relAcc : String) (f : FileNode)
    (clk : Nat) : Option FileRecord × Nat :=
  let (ok, clk) := tick cancelAt clk
  if !ok then (none, clk)
  else
    let fullPath := normalizePath (dirPath ++ "/" ++ f.name)
    let relativePath := relAcc ++ f.name
    if isAppBundlePath fullPath || fullPath == ctx.appPath
        || startsWithDotDot relativePath then (none, clk)
    else if ctx.ign relativePath then (none, clk)
    else
      match f.statResult with
      | .error e =>
        (some { name := f.name
                path := fullPath
                relativePath := relativePath
                size := 0
                content := ""
                tokenCount := 0
                isBinary := false
                isSkipped := true
                error := some (if e.code = "EPERM" then "Permission denied"
                               else if e.code = "ENOENT" then "File not found"
                               else "Could not read file") }, clk)
      | .ok size =>
        let (ok, clk) := tick cancelAt clk
        if !ok then (none, clk)
        else if size > MAX_FILE_SIZE then
          (some { name := f.name
                  path := fullPath
                  relativePath := relativePath
                  size := size
                  content := ""
                  tokenCount := 0
                  isBinary := false
                  isSkipped := true
                  error := some "File too large to process" }, clk)
        else if isBinaryFile ctx.binExts fullPath then
          (some { name := f.name
                  path := fullPath
                  relativePath := relativePath
                  size := size
                  content := ""
                  tokenCount := 0
                  isBinary := true
                  isSkipped := false
                  fileType := some (jsToUpper ((extnameOf fullPath).drop 1)) }, clk)
        else
          match f.readResult with
          | .error e =>
            (some { name := f.name
                    path := fullPath
                    relativePath := relativePath
                    size := 0
                    content := ""
                    tokenCount := 0
                    isBinary := false
                    isSkipped := true
                    error := some (if e.code = "EPERM" then "Permission denied"
                                   else if e.code = "ENOENT" then "File not found"
                                   else "Could not read file") }, clk)
          | .ok content =>
            let (ok, clk) := tick cancelAt clk
            if !ok then (none, clk)
            else
              (some { name := f.name
                      path := fullPath
                      relativePath := relativePath
                      size := size
                      content := content
                      tokenCount := countTokens ctx.encoder content
                      isBinary := false
                      isSkipped := false }, clk)

/-- The `chunk.map(async dirent => ...)` of one chunk, serialized in
enumeration order (one admissible schedule of the bounded concurrency). -/
def runChunkTasks (ctx : ScanCtx) (cancelAt : Option Nat)
    (dirPath relAcc : String) :
    List FileNode → Nat → List (Option FileRecord) × Nat
  | [], clk => ([], clk)
  | f :: rest, clk =>
    let (r, clk) := chunkFileTask ctx cancelAt dirPath relAcc f clk
    let (rs, clk) := runChunkTasks ctx cancelAt dirPath relAcc rest clk
    (r :: rs, clk)

/-- The running output of one `readFilesRecursively` activation: the
accumulated `results`, the clock, the messages sent so far, and whether the
activation returned early on a failed cancellation check. -/
structure ScanOut where
  recs : List FileRecord
  clk : Nat
  msgs : List Msg
  stopped : Bool
deriving Repr, DecidableEq

/-- The per-directory progress message (`main.js` lines 465-468). -/
def scanningMsg : Msg :=
  Msg.fps "processing" "Scanning directories... (Press ESC to cancel)"

/-- The per-chunk progress message (`main.js` lines 565-568). -/
def processingMsg (processed total : Nat) : Msg :=
  Msg.fps "processing"
    ("Processing files... " ++ toString processed ++ "/" ++ toString total
      ++ " (Press ESC to cancel)")

/-- The chunked files phase (`main.js` lines 472-569): per chunk, a flag
check, the chunk tasks, a post-join flag check that discards the whole
chunk when cancellation arrived, then the merge and a progress message. -/
def scanChunks (ctx : ScanCtx) (cancelAt : Option Nat)
    (dirPath relAcc : String) (total : Nat) :
    Nat → List (List FileNode) → ScanOut → ScanOut
  | _, [], st => st
  | processed, c :: rest, st =>
    let (ok, clk) := tick cancelAt st.clk
    if !ok then ⟨st.recs, clk, st.msgs, true⟩
    else
      let (outs, clk) := runChunkTasks ctx cancelAt dirPath relAcc c clk
      let (ok2, clk) := tick cancelAt clk
      if !ok2 then ⟨st.recs, clk, st.msgs, true⟩
      else
        let processed := processed + c.length
        scanChunks ctx cancelAt dirPath relAcc total processed rest
          ⟨st.recs ++ outs.filterMap id, clk,
            st.msgs ++ [processingMsg processed total], false⟩

mutual
/-- `readFilesRecursively dir rootDir ignoreFilter window` on the modelled
disk: the entry flag check (line 424), `readdir` with its catch (lines
435-436 and 570-576), the post-readdir flag check (line 437), the
directories phase, then the chunked files phase.  `dirPath` is the absolute
directory path, `relAcc` the root-relative prefix ending in `/` (empty at
the root), so that `relAcc ++ name` is `safeRelativePath rootDir fullPath`. -/
def scanDir (ctx : ScanCtx) (cancelAt : Option Nat)
    (dirPath relAcc : String) (body : FSDir)
    (clk : Nat) : ScanOut :=
  let (ok, clk) := tick cancelAt clk
  if !ok then ⟨[], clk, [], true⟩
  else
    match body with
    | .readErr _ => ⟨[], clk, [], false⟩
    | .entries es =>
      let (ok, clk) := tick cancelAt clk
      if !ok then ⟨[], clk, [], true⟩
      else
        let st := scanDirsPhase ctx cancelAt dirPath relAcc es ⟨[], clk, [], false⟩
        if st.stopped then st
        else
          let files := filesOf es
          scanChunks ctx cancelAt dirPath relAcc files.length 0 (chunksOf files) st

/-- The directories loop (`main.js` lines 443-469): per subdirectory a flag
check, the app-bundle/validity `continue`, the ignore check guarding the
recursion, the post-recursion flag check that returns without merging the
subtree when cancellation arrived, the merge, and the per-iteration
progress message. -/
def scanDirsPhase (ctx : ScanCtx) (cancelAt : Option Nat)
    (dirPath relAcc : String) :
    FSList → ScanOut → ScanOut
  | .nil, st => st
  | .cons (.file _) rest, st => scanDirsPhase ctx cancelAt dirPath relAcc rest st
  | .cons (.dir name body) rest, st =>
    let (ok, clk) := tick cancelAt st.clk
    if !ok then ⟨st.recs, clk, st.msgs, true⟩
    else
      let fullPath := normalizePath (dirPath ++ "/" ++ name)
      let rel := relAcc ++ name
      if isAppBundlePath fullPath || fullPath == ctx.appPath
          || startsWithDotDot rel then
        scanDirsPhase ctx cancelAt dirPath relAcc rest ⟨st.recs, clk, st.msgs, false⟩
      else if ctx.ign rel then
        scanDirsPhase ctx cancelAt dirPath relAcc rest
          ⟨st.recs, clk, st.msgs ++ [scanningMsg], false⟩
      else
        let sub := scanDir ctx cancelAt fullPath (rel ++ "/") body clk
        let (ok2, clk2) := tick cancelAt sub.clk
        if !ok2 then ⟨st.recs, clk2, st.msgs ++ sub.msgs, true⟩
        else
          scanDirsPhase ctx cancelAt dirPath relAcc rest
            ⟨st.recs ++ sub.recs, clk2, st.msgs ++ sub.msgs ++ [scanningMsg],
              false⟩
end

/-! ## IPC handlers (`request-file-list`, `cancel-directory-loading`) -/

/-- The mutable module state the handlers touch: the single-flight flag and
whether a watcher is live. -/
structure AppState where
  isLoadingDirectory : Bool
  hasWatcher : Bool
deriving Repr, DecidableEq

/-- The serialization map applied before `file-list-data`
(`main.js` lines 642-655). -/
def serializeFile (ctx : ScanCtx) (f : FileRecord) : SerializedFile :=
  { path := f.path
    relativePath := f.relativePath
    name := f.name
    size := f.size
    extension := jsToLower (extnameOf f.name)
    excluded := ctx.shouldExcl f.path
    content := f.content
    tokenCount := f.tokenCount
    isBinary := f.isBinary
    isSkipped := f.isSkipped
    error := f.error }

/-- The initial progress message of a scan (`main.js` lines 613-616). -/
def initialScanMsg : Msg :=
  Msg.fps "processing" "Scanning directory structure... (Press ESC to cancel)"

/-- The `busy` rejection message (`main.js` lines 593-596). -/
def busyMsg : Msg :=
  Msg.fps "busy" "Already processing another directory. Please wait."

/-- The `ipcMain.on("request-file-list")` handler (`main.js` lines 582-761):
when a load is in flight it closes the watcher, sends `busy` and returns;
otherwise it runs the scan from clock `0`, and on the post-scan flag read
(line 624) either returns early — sending nothing further — or clears the
flag, sends `complete`, sends the serialized list and arms the watcher.
Returns the new state and the messages this handler sent, in order. -/
def requestFileList (ctx : ScanCtx) (cancelAt : Option Nat)
    (rootPath : String) (body : FSDir)
    (st : AppState) : AppState × List Msg :=
  if st.isLoadingDirectory then
    ({ st with hasWatcher := false }, [busyMsg])
  else
    let out := scanDir ctx cancelAt rootPath "" body 0
    let (ok, _) := tick cancelAt out.clk
    if !ok then
      ({ isLoadingDirectory := false, hasWatcher := false },
        initialScanMsg :: out.msgs)
    else
      ({ isLoadingDirectory := false, hasWatcher := true },
        initialScanMsg :: out.msgs
          ++ [Msg.fps "complete" ("Found " ++ toString out.recs.length ++ " files"),
              Msg.fileListData (out.recs.map (serializeFile ctx))])

/-- `cancelDirectoryLoading` (`main.js` lines 841-863): a no-op when no load
is in flight; otherwise it clears the flag and sends the `cancelled` status
immediately.  Returns the messages it sent and the flag afterwards. -/
def cancelDirectoryLoading (isLoading : Bool) : List Msg × Bool :=
  if !isLoading then ([], isLoading)
  else ([Msg.fps "cancelled" "Directory loading cancelled"], false)

/-! ## The watcher (`chokidar.watch`, `main.js` lines 660-736) -/

/-- The `ignored` predicate handed to chokidar (`main.js` lines 663-700),
with `relOf` standing for `safeRelativePath rootDir` composed with
`ensureAbsolutePath`: the root itself is never ignored; an unparsable or
outside path is ignored; otherwise the session ignore rules decide. -/
def watcherIgnoredPred (ctx : ScanCtx) (relOf : String → String)
    (filePath : String) : Bool :=
  let relative := relOf filePath
  if relative = "" then false
  else startsWithDotDot relative || ctx.ign relative

/-- Modelled from the spec: chokidar (an external dependency, not part of
the staged sources) delivers an event for a path only when the `ignored`
predicate rejects it — "Ignored-path predicate reuses IgnoreEngine against
the same ruleset captured at scan time — a file added after arming that
would have been excluded by gitignore is never surfaced." -/
def watchEvent (ignoredPred : String → Bool) (handler : String → List Msg)
    (p : String) : List Msg :=
  if ignoredPred p then [] else handler p

/-- The `add` handler (`main.js` lines 711-719): re-run the single-file
pipeline on the normalized path and send `file-added` unless it returned
`null`. -/
def onAddHandler (ctx : ScanCtx) (relOf : String → String)
    (stat : Except JsError Nat) (rd : Except JsError String)
    (filePath : String) : List Msg :=
  let normalizedPath := normalizePath filePath
  match processSingleFile ctx normalizedPath (relOf normalizedPath) stat rd with
  | some fileData => [Msg.fileAdded fileData]
  | none => []

/-- The `change` handler (`main.js` lines 720-727), identical pipeline,
sending `file-updated`. -/
def onChangeHandler (ctx : ScanCtx) (relOf : String → String)
    (stat : Except JsError Nat) (rd : Except JsError String)
    (filePath : String) : List Msg :=
  let normalizedPath := normalizePath filePath
  match processSingleFile ctx normalizedPath (relOf normalizedPath) stat rd with
  | some fileData => [Msg.fileUpdated fileData]
  | none => []

/-- The `unlink` handler (`main.js` lines 728-732). -/
def onUnlinkHandler (filePath : String) : List Msg :=
  [Msg.fileRemoved (normalizePath filePath)]

/-! ## The content formatter (`formatContentForCopying`,
`utils/contentFormatUtils.ts`) -/

/-- The renderer `FileData` fields the formatter reads. -/
structure FileData where
  name : String
  path : String
  size : Nat
  tokenCount : Nat
  content : String
deriving Repr, DecidableEq

/-- The helpers the formatter imports from `pathUtils.ts` /
`languageUtils.ts`, files that are not part of the staged sources; the spec
describes them only abstractly, so they are opaque pure parameters.
`localeCmp` is `String.prototype.localeCompare`. -/
structure FormatterEnv where
  generateAsciiFileTree : List FileData → String → String
  getLanguageFromFilename : String → String
  basename : String → String
  isSubPath : String → String → Bool
  localeCmp : String → String → Int

/-- The arguments of `formatContentForCopying`. -/
structure FormatContentParams where
  files : List FileData
  selectedFiles : List String
  sortOrder : String
  includeFileTree : Bool
  selectedFolder : Option String
  userInstructions : String
deriving Repr, DecidableEq

/-- Stable insertion of `x` before the first element it does not come
after. -/
def stableInsert (le : α → α → Bool) (x : α) : List α → List α
  | [] => [x]
  | y :: ys => if le x y then x :: y :: ys else y :: stableInsert le x ys

/-- A stable sort, modelling the (stable) JS `Array.prototype.sort`. -/
def stableSortBy (le : α → α → Bool) : List α → List α
  | [] => []
  | x :: xs => stableInsert le x (stableSortBy le xs)

/-- Split a string on `'-'` characters (JS `sortOrder.split("-")`). -/
def splitOnDash (s : String) : List String :=
  (splitDashAux s.data).map String.mk
where
  /-- Character-level split on `'-'`. -/
  splitDashAux : List Char → List (List Char)
    | [] => [[]]
    | c :: rest =>
      match splitDashAux rest with
      | [] => [[c]]
      | g :: gs => if c = '-' then [] :: g :: gs else (c :: g) :: gs

/-- The sort comparator of `formatContentForCopying` (lines 966-979): pick
the key from `sortOrder`, compare, and negate unless ascending. -/
def formatComparator (env : FormatterEnv) (sortOrder : String)
    (a b : FileData) : Int :=
  let parts := splitOnDash sortOrder
  let sortKey := parts.getD 0 ""
  let sortDir := parts.getD 1 ""
  let comparison : Int :=
    if sortKey = "name" then env.localeCmp a.name b.name
    else if sortKey = "tokens" then (a.tokenCount : Int) - (b.tokenCount : Int)
    else if sortKey = "size" then (a.size : Int) - (b.size : Int)
    else 0
  if sortDir = "asc" then comparison else -comparison

/-- `getRelativePath` (lines 911-926): strip the folder prefix and leading
slashes when the file path starts with the folder path, else return the file
path unchanged. -/
def getRelativePath (selectedFolder filePath : String) : String :=
  let normalizedFolder := normalizePath selectedFolder
  let normalizedFile := normalizePath filePath
  if normalizedFolder.data.isPrefixOf normalizedFile.data then
    String.mk (dropLeadingSlashes (normalizedFile.data.drop normalizedFolder.data.length))
  else filePath
where
  /-- `replace(/^\/+/, '')`. -/
  dropLeadingSlashes : List Char → List Char
    | '/' :: rest => dropLeadingSlashes rest
    | cs => cs

/-- `getFilesInFolder` (lines 934-940). -/
def getFilesInFolder (env : FormatterEnv) (files : List FileData)
    (folderPath : String) : List FileData :=
  let normalizedFolderPath := normalizePath folderPath
  files.filter fun file => env.isSubPath normalizedFolderPath (normalizePath file.path)

/-- One file block of the `<CODEBASE>` section (lines 1004-1025). -/
def fileBlock (env : FormatterEnv) (selectedFolder : Option String)
    (file : FileData) : String :=
  let language := env.getLanguageFromFilename file.name
  let normalizedPath := normalizePath file.path
  let relativePath :=
    match selectedFolder with
    | some folder => getRelativePath folder file.path
    | none => ""
  let pathInfo :=
    if relativePath ≠ "" && relativePath ≠ file.path then
      let folderName :=
        match selectedFolder with
        | some folder => env.basename folder
        | none => ""
      "File: " ++ folderName ++ "/" ++ relativePath
    else "File: " ++ normalizedPath
  pathInfo ++ "\n" ++ "```" ++ language ++ "\n" ++ file.content ++ "\n"
    ++ "```" ++ "\n\n"

/-- JS `String.prototype.trim` (ASCII whitespace suffices for the model). -/
def jsTrim (s : String) : String :=
  String.mk (trimLead (trimLead s.data.reverse).reverse)
where
  /-- Drop leading whitespace characters. -/
  trimLead : List Char → List Char
    | c :: rest =>
      if c = ' ' || c = '\n' || c = '\t' || c = '\r' then trimLead rest
      else c :: rest
    | [] => []

/-- `formatContentForCopying` (lines 955-1035): filter to the selection,
stable-sort by the requested key, short-circuit to the no-selection message,
then assemble the optional `<FILE STRUCTURE>` block, the `<CODEBASE>` block
and the optional `<user_instructions>` block. -/
def formatContentForCopying (env : FormatterEnv) (p : FormatContentParams) :
    String :=
  let sortedSelected :=
    stableSortBy
      (fun a b => formatComparator env p.sortOrder a b ≤ 0)
      (p.files.filter fun file => p.selectedFiles.contains file.path)
  if sortedSelected.length = 0 then "No files selected."
  else
    let treePart :=
      match p.selectedFolder with
      | some folder =>
        if p.includeFileTree then
          let normalizedFolder := normalizePath folder
          let allFolderFiles := getFilesInFolder env p.files folder
          let asciiTree := env.generateAsciiFileTree allFolderFiles folder
          "<FILE STRUCTURE>" ++ "\n" ++ normalizedFolder ++ "\n" ++ asciiTree
            ++ "\n" ++ "</FILE STRUCTURE>" ++ "\n\n"
        else ""
      | none => ""
    let codebase :=
      "<CODEBASE>" ++ "\n"
        ++ String.join (sortedSelected.map (fileBlock env p.selectedFolder))
        ++ "</CODEBASE>" ++ "\n\n"
    let instructions :=
      if jsTrim p.userInstructions ≠ "" then
        "<user_instructions>" ++ "\n" ++ jsTrim p.userInstructions ++ "\n"
          ++ "</user_instructions>"
      else ""
    treePart ++ codebase ++ instructions

/-! ## Initial-segment order on lists -/

/-- `InitSeg l₁ l₂`: `l₁` is an initial segment of `l₂`. -/
def InitSeg (l₁ l₂ : List α) : Prop := ∃ s, l₁ ++ s = l₂

theorem initSeg_refl (l : List α) : InitSeg l l := ⟨[], List.append_nil l⟩

theorem initSeg_nil (l : List α) : InitSeg [] l := ⟨l, rfl⟩

theorem initSeg_trans {a b c : List α} (h₁ : InitSeg a b) (h₂ : InitSeg b c) :
    InitSeg a c := by
  obtain ⟨s, rfl⟩ := h₁
  obtain ⟨u, rfl⟩ := h₂
  exact ⟨s ++ u, (List.append_assoc a s u).symm⟩

theorem initSeg_append (l s : List α) : InitSeg l (l ++ s) := ⟨s, rfl⟩

theorem initSeg_append_left (l : List α) {a b : List α} (h : InitSeg a b) :
    InitSeg (l ++ a) (l ++ b) := by
  obtain ⟨s, rfl⟩ := h
  exact ⟨s, List.append_assoc l a s⟩

/-! ## Clock facts -/

theorem tick_none (k : Nat) : tick none k = (true, k + 1) := rfl

theorem tick_some (t k : Nat) : tick (some t) k = (decide (k < t), k + 1) := rfl

theorem tick_snd (c : Option Nat) (k : Nat) : (tick c k).2 = k + 1 := rfl

/-- The clock never decreases across one chunk-file task. -/
theorem chunkFileTask_clk_le (ctx : ScanCtx) (cab : Option Nat)
    (d r : String) (f : FileNode) (clk : Nat) :
    clk ≤ (chunkFileTask ctx cab d r f clk).2 := by
  unfold chunkFileTask
  cases h : tick cab clk with
  | mk ok clk1 =>
    have h1 : clk1 = clk + 1 := by
      have := tick_snd cab clk
      rw [h] at this
      simpa using this
    subst h1
    dsimp only
    split
    · omega
    · split
      · omega
      · split
        · omega
        · split
          · omega
          · rename_i sz
            cases h2 : tick cab (clk + 1) with
            | mk ok2 clk2 =>
              have h3 : clk2 = clk + 2 := by
                have := tick_snd cab (clk + 1)
                rw [h2] at this
                simpa using this
              subst h3
              dsimp only
              split
              · omega
              · split
                · omega
                · split
                  · omega
                  · split
                    · omega
                    · cases h4 : tick cab (clk + 2) with
                      | mk ok3 clk3 =>
                        have h5 : clk3 = clk + 3 := by
                          have := tick_snd cab (clk + 2)
                          rw [h4] at this
                          simpa using this
                        subst h5
                        dsimp only
                        split
                        · omega
                        · omega

/-- The clock never decreases across a chunk's tasks. -/
theorem runChunkTasks_clk_le (ctx : ScanCtx) (cab : Option Nat)
    (d r : String) (fs : List FileNode) (clk : Nat) :
    clk ≤ (runChunkTasks ctx cab d r fs clk).2 := by
  induction fs generalizing clk with
  | nil => simp [runChunkTasks]
  | cons f rest ih =>
    have h1 := chunkFileTask_clk_le ctx cab d r f clk
    cases hf : chunkFileTask ctx cab d r f clk with
    | mk v clk1 =>
      rw [hf] at h1
      have h2 := ih clk1
      cases hr : runChunkTasks ctx cab d r rest clk1 with
      | mk vs clk2 =>
        rw [hr] at h2
        simp only [runChunkTasks, hf, hr]
        omega

/-- The clock never decreases across the chunked files phase. -/
theorem scanChunks_clk_le (ctx : ScanCtx) (cab : Option Nat)
    (d r : String) (total : Nat) (p : Nat) (chs : List (List FileNode))
    (st : ScanOut) : st.clk ≤ (scanChunks ctx cab d r total p chs st).clk := by
  induction chs generalizing p st with
  | nil => simp [scanChunks]
  | cons c rest ih =>
    unfold scanChunks
    cases h : tick cab st.clk with
    | mk ok clk1 =>
      have h1 : clk1 = st.clk + 1 := by
        have := tick_snd cab st.clk
        rw [h] at this
        simpa using this
      subst h1
      dsimp only
      split
      · show st.clk ≤ st.clk + 1
        omega
      · have h2 := runChunkTasks_clk_le ctx cab d r c (st.clk + 1)
        cases hr : runChunkTasks ctx cab d r c (st.clk + 1) with
        | mk vs clk2 =>
          rw [hr] at h2
          dsimp only
          cases h3 : tick cab clk2 with
          | mk ok2 clk3 =>
            have h4 : clk3 = clk2 + 1 := by
              have := tick_snd cab clk2
              rw [h3] at this
              simpa using this
            subst h4
            dsimp only
            split
            · show st.clk ≤ clk2 + 1
              omega
            · have h5 := ih (p + c.length)
                ⟨st.recs ++ vs.filterMap id, clk2 + 1,
                  st.msgs ++ [processingMsg (p + c.length) total], false⟩
              simp only at h5
              omega

mutual
/-- The clock never decreases across a directory activation. -/
theorem scanDir_clk_le (ctx : ScanCtx) (cab : Option Nat) (d r : String)
    (body : FSDir) (clk : Nat) : clk ≤ (scanDir ctx cab d r body clk).clk := by
  unfold scanDir
  cases h : tick cab clk with
  | mk ok clk1 =>
    have h1 : clk1 = clk + 1 := by
      have := tick_snd cab clk
      rw [h] at this
      simpa using this
    subst h1
    dsimp only
    split
    · show clk ≤ clk + 1
      omega
    · cases body with
      | readErr e =>
        show clk ≤ clk + 1
        omega
      | entries es =>
        dsimp only
        cases h2 : tick cab (clk + 1) with
        | mk ok2 clk2 =>
          have h3 : clk2 = clk + 2 := by
            have := tick_snd cab (clk + 1)
            rw [h2] at this
            simpa using this
          subst h3
          dsimp only
          split
          · show clk ≤ clk + 2
            omega
          · have h4 := scanDirsPhase_clk_le ctx cab d r es ⟨[], clk + 2, [], false⟩
            simp only at h4
            split
            · omega
            · have h5 := scanChunks_clk_le ctx cab d r (filesOf es).length 0
                (chunksOf (filesOf es))
                (scanDirsPhase ctx cab d r es ⟨[], clk + 2, [], false⟩)
              omega

/-- The clock never decreases across the directories phase. -/
theorem scanDirsPhase_clk_le (ctx : ScanCtx) (cab : Option Nat) (d r : String)
    (es : FSList) (st : ScanOut) :
    st.clk ≤ (scanDirsPhase ctx cab d r es st).clk := by
  cases es with
  | nil => simp [scanDirsPhase]
  | cons e rest =>
    cases e with
    | file f =>
      show st.clk ≤ (scanDirsPhase ctx cab d r rest st).clk
      exact scanDirsPhase_clk_le ctx cab d r rest st
    | dir name body =>
      unfold scanDirsPhase
      cases h : tick cab st.clk with
      | mk ok clk1 =>
        have h1 : clk1 = st.clk + 1 := by
          have := tick_snd cab st.clk
          rw [h] at this
          simpa using this
        subst h1
        dsimp only
        split
        · show st.clk ≤ st.clk + 1
          omega
        · split
          · have h2 := scanDirsPhase_clk_le ctx cab d r rest
              ⟨st.recs, st.clk + 1, st.msgs, false⟩
            simp only at h2
            omega
          · split
            · have h2 := scanDirsPhase_clk_le ctx cab d r rest
                ⟨st.recs, st.clk + 1, st.msgs ++ [scanningMsg], false⟩
              simp only at h2
              omega
            · have h3 := scanDir_clk_le ctx cab
                (normalizePath (d ++ "/" ++ name)) (r ++ name ++ "/") body
                (st.clk + 1)
              cases h4 : tick cab
                  (scanDir ctx cab (normalizePath (d ++ "/" ++ name))
                    (r ++ name ++ "/") body (st.clk + 1)).clk with
              | mk ok2 clk2 =>
                have h5 : clk2 = (scanDir ctx cab
                    (normalizePath (d ++ "/" ++ name)) (r ++ name ++ "/") body
                    (st.clk + 1)).clk + 1 := by
                  have := tick_snd cab (scanDir ctx cab
                    (normalizePath (d ++ "/" ++ name)) (r ++ name ++ "/") body
                    (st.clk + 1)).clk
                  rw [h4] at this
                  simpa using this
                subst h5
                dsimp only
                split
                · simp only
                  omega
                · have h6 := scanDirsPhase_clk_le ctx cab d r rest
                    ⟨st.recs ++ (scanDir ctx cab (normalizePath (d ++ "/" ++ name))
                        (r ++ name ++ "/") body (st.clk + 1)).recs,
                      (scanDir ctx cab (normalizePath (d ++ "/" ++ name))
                        (r ++ name ++ "/") body (st.clk + 1)).clk + 1,
                      st.msgs ++ (scanDir ctx cab (normalizePath (d ++ "/" ++ name))
                        (r ++ name ++ "/") body (st.clk + 1)).msgs ++ [scanningMsg],
                      false⟩
                  simp only at h6
                  omega
end
/-- While its final clock stays within the cancel time, a chunk-file task
behaves as if no cancel were pending. -/
theorem chunkFileTask_agree (ctx : ScanCtx) (t : Nat) (d r : String)
    (f : FileNode) (clk : Nat)
    (h : (chunkFileTask ctx (some t) d r f clk).2 ≤ t) :
    chunkFileTask ctx (some t) d r f clk = chunkFileTask ctx none d r f clk := by
  by_cases hc : clk < t
  · by_cases hA : (isAppBundlePath (normalizePath (d ++ "/" ++ f.name)) = true ∨
        normalizePath (d ++ "/" ++ f.name) = ctx.appPath) ∨
        startsWithDotDot (r ++ f.name) = true
    · simp [chunkFileTask, tick_some, tick_none, hc, hA]
    · by_cases hI : ctx.ign (r ++ f.name) = true
      · simp [chunkFileTask, tick_some, tick_none, hc, hA, hI]
      · cases hs : f.statResult with
        | error e => simp [chunkFileTask, tick_some, tick_none, hc, hA, hI, hs]
        | ok sz =>
          by_cases hc2 : clk + 1 < t
          · by_cases hsz : MAX_FILE_SIZE < sz
            · simp [chunkFileTask, tick_some, tick_none, hc, hc2, hA, hI, hs, hsz]
            · by_cases hb : isBinaryFile ctx.binExts
                  (normalizePath (d ++ "/" ++ f.name)) = true
              · simp [chunkFileTask, tick_some, tick_none, hc, hc2, hA, hI, hs,
                  hsz, hb]
              · cases hr : f.readResult with
                | error e =>
                  simp [chunkFileTask, tick_some, tick_none, hc, hc2, hA, hI, hs,
                    hsz, hb, hr]
                | ok content =>
                  by_cases hc3 : clk + 2 < t
                  · simp [chunkFileTask, tick_some, tick_none, hc, hc2, hc3, hA,
                      hI, hs, hsz, hb, hr]
                  · have h2 : (chunkFileTask ctx (some t) d r f clk).2 = clk + 3 := by
                      simp [chunkFileTask, tick_some, hc, hc2, hc3, hA, hI, hs,
                        hsz, hb, hr]
                    omega
          · have h2 : (chunkFileTask ctx (some t) d r f clk).2 = clk + 2 := by
              simp [chunkFileTask, tick_some, hc, hc2, hA, hI, hs]
            omega
  · have h2 : (chunkFileTask ctx (some t) d r f clk).2 = clk + 1 := by
      simp [chunkFileTask, tick_some, hc]
    omega

/-- While its final clock stays within the cancel time, a chunk of tasks
behaves as if no cancel were pending. -/
theorem runChunkTasks_agree (ctx : ScanCtx) (t : Nat) (d r : String)
    (fs : List FileNode) (clk : Nat)
    (h : (runChunkTasks ctx (some t) d r fs clk).2 ≤ t) :
    runChunkTasks ctx (some t) d r fs clk = runChunkTasks ctx none d r fs clk := by
  induction fs generalizing clk with
  | nil => rfl
  | cons f rest ih =>
    cases hf : chunkFileTask ctx (some t) d r f clk with
    | mk v clk1 =>
      have hrest := runChunkTasks_clk_le ctx (some t) d r rest clk1
      have hfin : (runChunkTasks ctx (some t) d r (f :: rest) clk).2
          = (runChunkTasks ctx (some t) d r rest clk1).2 := by
        simp only [runChunkTasks, hf]
      have h1 : clk1 ≤ t := by
        have := chunkFileTask_clk_le ctx (some t) d r f clk
        rw [hf] at this
        rw [hfin] at h
        omega
      have hagree := chunkFileTask_agree ctx t d r f clk (by rw [hf]; exact h1)
      have hrest2 : runChunkTasks ctx (some t) d r rest clk1
          = runChunkTasks ctx none d r rest clk1 := by
        apply ih
        rw [hfin] at h
        exact h
      simp only [runChunkTasks, hf, hrest2]
      rw [← hagree, hf]
/-- While its final clock stays within the cancel time, the chunked files
phase behaves as if no cancel were pending. -/
theorem scanChunks_agree (ctx : ScanCtx) (t : Nat) (d r : String)
    (total : Nat) (chs : List (List FileNode)) :
    ∀ (p : Nat) (st : ScanOut),
      (scanChunks ctx (some t) d r total p chs st).clk ≤ t →
      scanChunks ctx (some t) d r total p chs st
        = scanChunks ctx none d r total p chs st := by
  induction chs with
  | nil => intro p st _; rfl
  | cons c rest ih =>
    intro p st h
    by_cases hc : st.clk < t
    · cases hq : runChunkTasks ctx (some t) d r c (st.clk + 1) with
      | mk outs clk2 =>
        by_cases hc2 : clk2 < t
        · have hagree := runChunkTasks_agree ctx t d r c (st.clk + 1)
            (by rw [hq]; omega)
          have hfin : (scanChunks ctx (some t) d r total p (c :: rest) st).clk
              = (scanChunks ctx (some t) d r total (p + c.length) rest
                  ⟨st.recs ++ outs.filterMap id, clk2 + 1,
                    st.msgs ++ [processingMsg (p + c.length) total], false⟩).clk := by
            simp only [scanChunks, tick_some, hq]
            simp [hc, hc2]
          have hrec := ih (p + c.length)
            ⟨st.recs ++ outs.filterMap id, clk2 + 1,
              st.msgs ++ [processingMsg (p + c.length) total], false⟩
            (by rw [← hfin]; exact h)
          simp only [scanChunks, tick_some, tick_none, hq, ← hagree]
          simp [hc, hc2, hrec]
        · have hfin : (scanChunks ctx (some t) d r total p (c :: rest) st).clk
              = clk2 + 1 := by
            simp only [scanChunks, tick_some, hq]
            simp [hc, hc2]
          omega
    · have hfin : (scanChunks ctx (some t) d r total p (c :: rest) st).clk
          = st.clk + 1 := by
        simp only [scanChunks, tick_some]
        simp [hc]
      omega

mutual
/-- While its final clock stays within the cancel time, a directory
activation behaves as if no cancel were pending. -/
theorem scanDir_agree (ctx : ScanCtx) (t : Nat) (d r : String)
    (body : FSDir) (clk : Nat)
    (h : (scanDir ctx (some t) d r body clk).clk ≤ t) :
    scanDir ctx (some t) d r body clk = scanDir ctx none d r body clk := by
  by_cases hc : clk < t
  · cases body with
    | readErr e => simp [scanDir, tick_some, tick_none, hc]
    | entries es =>
      by_cases hc2 : clk + 1 < t
      · have hfin : (scanDir ctx (some t) d r (.entries es) clk).clk
            = (if (scanDirsPhase ctx (some t) d r es ⟨[], clk + 1 + 1, [], false⟩).stopped
               then scanDirsPhase ctx (some t) d r es ⟨[], clk + 1 + 1, [], false⟩
               else scanChunks ctx (some t) d r (filesOf es).length 0
                 (chunksOf (filesOf es))
                 (scanDirsPhase ctx (some t) d r es ⟨[], clk + 1 + 1, [], false⟩)).clk := by
          simp only [scanDir, tick_some]
          simp [hc, hc2]
        by_cases hstop : (scanDirsPhase ctx (some t) d r es
            ⟨[], clk + 1 + 1, [], false⟩).stopped
        · rw [hfin] at h
          simp only [hstop, if_true] at h
          have hphase := scanDirsPhase_agree ctx t d r es ⟨[], clk + 1 + 1, [], false⟩ h
          have hstop2 : (scanDirsPhase ctx none d r es
              ⟨[], clk + 1 + 1, [], false⟩).stopped = true := by
            rw [← hphase]
            exact hstop
          simp only [scanDir, tick_some, tick_none]
          simp [hc, hc2, hphase, hstop2]
        · rw [hfin] at h
          simp only [hstop, if_false, Bool.false_eq_true] at h
          have hpclk := scanChunks_clk_le ctx (some t) d r (filesOf es).length 0
            (chunksOf (filesOf es))
            (scanDirsPhase ctx (some t) d r es ⟨[], clk + 1 + 1, [], false⟩)
          have hphase := scanDirsPhase_agree ctx t d r es ⟨[], clk + 1 + 1, [], false⟩
            (by omega)
          have hchunks := scanChunks_agree ctx t d r (filesOf es).length
            (chunksOf (filesOf es)) 0
            (scanDirsPhase ctx (some t) d r es ⟨[], clk + 1 + 1, [], false⟩) h
          simp only [scanDir, tick_some, tick_none]
          simp [hc, hc2, ← hphase, hchunks, hstop]
      · have hfin : (scanDir ctx (some t) d r (.entries es) clk).clk = clk + 2 := by
          simp only [scanDir, tick_some]
          simp [hc, hc2]
        omega
  · have hfin : (scanDir ctx (some t) d r body clk).clk = clk + 1 := by
      cases body with
      | readErr e =>
        simp only [scanDir, tick_some]
        simp [hc]
      | entries es =>
        simp only [scanDir, tick_some]
        simp [hc]
    omega

/-- While its final clock stays within the cancel time, the directories
phase behaves as if no cancel were pending. -/
theorem scanDirsPhase_agree (ctx : ScanCtx) (t : Nat) (d r : String)
    (es : FSList) (st : ScanOut)
    (h : (scanDirsPhase ctx (some t) d r es st).clk ≤ t) :
    scanDirsPhase ctx (some t) d r es st = scanDirsPhase ctx none d r es st := by
  cases es with
  | nil => rfl
  | cons e rest =>
    cases e with
    | file f =>
      show scanDirsPhase ctx (some t) d r rest st = _
      exact scanDirsPhase_agree ctx t d r rest st h
    | dir name body =>
      by_cases hc : st.clk < t
      · by_cases hA : (isAppBundlePath (normalizePath (d ++ "/" ++ name)) = true ∨
            normalizePath (d ++ "/" ++ name) = ctx.appPath) ∨
            startsWithDotDot (r ++ name) = true
        · have hfin : (scanDirsPhase ctx (some t) d r (.cons (.dir name body) rest) st).clk
              = (scanDirsPhase ctx (some t) d r rest
                  ⟨st.recs, st.clk + 1, st.msgs, false⟩).clk := by
            simp only [scanDirsPhase, tick_some]
            simp [hc, hA]
          have hrec := scanDirsPhase_agree ctx t d r rest
            ⟨st.recs, st.clk + 1, st.msgs, false⟩ (by rw [← hfin]; exact h)
          simp only [scanDirsPhase, tick_some, tick_none]
          simp [hc, hA, hrec]
        · by_cases hI : ctx.ign (r ++ name) = true
          · have hfin : (scanDirsPhase ctx (some t) d r (.cons (.dir name body) rest) st).clk
                = (scanDirsPhase ctx (some t) d r rest
                    ⟨st.recs, st.clk + 1, st.msgs ++ [scanningMsg], false⟩).clk := by
              simp only [scanDirsPhase, tick_some]
              simp [hc, hA, hI]
            have hrec := scanDirsPhase_agree ctx t d r rest
              ⟨st.recs, st.clk + 1, st.msgs ++ [scanningMsg], false⟩
              (by rw [← hfin]; exact h)
            simp only [scanDirsPhase, tick_some, tick_none]
            simp [hc, hA, hI, hrec]
          · by_cases hc2 : (scanDir ctx (some t) (normalizePath (d ++ "/" ++ name))
                (r ++ name ++ "/") body (st.clk + 1)).clk < t
            · have hsub := scanDir_agree ctx t (normalizePath (d ++ "/" ++ name))
                (r ++ name ++ "/") body (st.clk + 1) (by omega)
              have hfin : (scanDirsPhase ctx (some t) d r
                    (.cons (.dir name body) rest) st).clk
                  = (scanDirsPhase ctx (some t) d r rest
                      ⟨st.recs ++ (scanDir ctx (some t) (normalizePath (d ++ "/" ++ name))
                          (r ++ name ++ "/") body (st.clk + 1)).recs,
                        (scanDir ctx (some t) (normalizePath (d ++ "/" ++ name))
                          (r ++ name ++ "/") body (st.clk + 1)).clk + 1,
                        st.msgs ++ (scanDir ctx (some t) (normalizePath (d ++ "/" ++ name))
                          (r ++ name ++ "/") body (st.clk + 1)).msgs ++ [scanningMsg],
                        false⟩).clk := by
                simp only [scanDirsPhase, tick_some]
                simp [hc, hA, hI, hc2]
              have hrec := scanDirsPhase_agree ctx t d r rest
                ⟨st.recs ++ (scanDir ctx (some t) (normalizePath (d ++ "/" ++ name))
                    (r ++ name ++ "/") body (st.clk + 1)).recs,
                  (scanDir ctx (some t) (normalizePath (d ++ "/" ++ name))
                    (r ++ name ++ "/") body (st.clk + 1)).clk + 1,
                  st.msgs ++ (scanDir ctx (some t) (normalizePath (d ++ "/" ++ name))
                    (r ++ name ++ "/") body (st.clk + 1)).msgs ++ [scanningMsg],
                  false⟩ (by rw [← hfin]; exact h)
              simp only [scanDirsPhase, tick_some, tick_none]
              simp [hc, hA, hI, hc2, ← hsub]
              simpa [List.append_assoc] using hrec
            · have hfin : (scanDirsPhase ctx (some t) d r
                    (.cons (.dir name body) rest) st).clk
                  = (scanDir ctx (some t) (normalizePath (d ++ "/" ++ name))
                      (r ++ name ++ "/") body (st.clk + 1)).clk + 1 := by
                simp only [scanDirsPhase, tick_some]
                simp [hc, hA, hI, hc2]
              omega
      · have hfin : (scanDirsPhase ctx (some t) d r
            (.cons (.dir name body) rest) st).clk = st.clk + 1 := by
          simp only [scanDirsPhase, tick_some]
          simp [hc]
        omega
end

/-- The chunked files phase only ever appends to the accumulated records. -/
theorem scanChunks_recs_acc (ctx : ScanCtx) (cab : Option Nat) (d r : String)
    (total : Nat) (chs : List (List FileNode)) :
    ∀ (p : Nat) (st : ScanOut),
      InitSeg st.recs (scanChunks ctx cab d r total p chs st).recs := by
  induction chs with
  | nil => intro p st; exact initSeg_refl _
  | cons c rest ih =>
    intro p st
    cases h : tick cab st.clk with
    | mk ok clk1 =>
      cases ok with
      | false =>
        simp only [scanChunks, h, Bool.not_false, if_true]
        exact initSeg_refl _
      | true =>
        cases hq : runChunkTasks ctx cab d r c clk1 with
        | mk outs clk2 =>
          cases h2 : tick cab clk2 with
          | mk ok2 clk3 =>
            cases ok2 with
            | false =>
              simp only [scanChunks, h, hq, h2, Bool.not_false, Bool.not_true,
                if_true, if_false]
              exact initSeg_refl _
            | true =>
              have hrec := ih (p + c.length)
                ⟨st.recs ++ outs.filterMap id, clk3,
                  st.msgs ++ [processingMsg (p + c.length) total], false⟩
              simp only [scanChunks, h, hq, h2, Bool.not_false, Bool.not_true,
                if_true, if_false]
              simp only at hrec
              exact initSeg_trans (initSeg_append _ _) hrec

/-- The directories phase only ever appends to the accumulated records. -/
theorem scanDirsPhase_recs_acc (ctx : ScanCtx) (cab : Option Nat) (d r : String)
    (es : FSList) (st : ScanOut) :
    InitSeg st.recs (scanDirsPhase ctx cab d r es st).recs := by
  cases es with
  | nil => exact initSeg_refl _
  | cons e rest =>
    cases e with
    | file f =>
      show InitSeg st.recs (scanDirsPhase ctx cab d r rest st).recs
      exact scanDirsPhase_recs_acc ctx cab d r rest st
    | dir name body =>
      cases h : tick cab st.clk with
      | mk ok clk1 =>
        cases ok with
        | false =>
          simp only [scanDirsPhase, h, Bool.not_false, if_true]
          exact initSeg_refl _
        | true =>
          by_cases hA : (isAppBundlePath (normalizePath (d ++ "/" ++ name)) = true ∨
              normalizePath (d ++ "/" ++ name) = ctx.appPath) ∨
              startsWithDotDot (r ++ name) = true
          · have hrec := scanDirsPhase_recs_acc ctx cab d r rest
              ⟨st.recs, clk1, st.msgs, false⟩
            simp only [scanDirsPhase, h, Bool.not_true, if_false]
            simpa [hA] using hrec
          · by_cases hI : ctx.ign (r ++ name) = true
            · have hrec := scanDirsPhase_recs_acc ctx cab d r rest
                ⟨st.recs, clk1, st.msgs ++ [scanningMsg], false⟩
              simp only [scanDirsPhase, h, Bool.not_true, if_false]
              simp only at hrec
              simp [hA, hI]
              simpa using hrec
            · cases h2 : tick cab
                  (scanDir ctx cab (normalizePath (d ++ "/" ++ name))
                    (r ++ name ++ "/") body clk1).clk with
              | mk ok2 clk2 =>
                cases ok2 with
                | false =>
                  simp only [scanDirsPhase, h, Bool.not_true, if_false]
                  simp [hA, hI, h2]
                  exact initSeg_refl _
                | true =>
                  have hrec := scanDirsPhase_recs_acc ctx cab d r rest
                    ⟨st.recs ++ (scanDir ctx cab (normalizePath (d ++ "/" ++ name))
                        (r ++ name ++ "/") body clk1).recs, clk2,
                      st.msgs ++ ((scanDir ctx cab (normalizePath (d ++ "/" ++ name))
                        (r ++ name ++ "/") body clk1).msgs ++ [scanningMsg]),
                      false⟩
                  simp only [scanDirsPhase, h, Bool.not_true, if_false]
                  simp [hA, hI, h2]
                  exact initSeg_trans (initSeg_append _ _) hrec

/-- A files phase that never aborted has stayed within the cancel time. -/
theorem scanChunks_clean (ctx : ScanCtx) (t : Nat) (d r : String)
    (total : Nat) (chs : List (List FileNode)) :
    ∀ (p : Nat) (st : ScanOut), st.clk ≤ t →
      (scanChunks ctx (some t) d r total p chs st).stopped = false →
      (scanChunks ctx (some t) d r total p chs st).clk ≤ t := by
  induction chs with
  | nil => intro p st h _; exact h
  | cons c rest ih =>
    intro p st h hstop
    by_cases hc : st.clk < t
    · cases hq : runChunkTasks ctx (some t) d r c (st.clk + 1) with
      | mk outs clk2 =>
        by_cases hc2 : clk2 < t
        · have hrec := ih (p + c.length)
            ⟨st.recs ++ outs.filterMap id, clk2 + 1,
              st.msgs ++ [processingMsg (p + c.length) total], false⟩
            (by simp only; omega)
          have heq : scanChunks ctx (some t) d r total p (c :: rest) st
              = scanChunks ctx (some t) d r total (p + c.length) rest
                ⟨st.recs ++ outs.filterMap id, clk2 + 1,
                  st.msgs ++ [processingMsg (p + c.length) total], false⟩ := by
            simp only [scanChunks, tick_some, hq]
            simp [hc, hc2]
          rw [heq] at hstop ⊢
          exact hrec hstop
        · have heq : scanChunks ctx (some t) d r total p (c :: rest) st
              = ⟨st.recs, clk2 + 1, st.msgs, true⟩ := by
            simp only [scanChunks, tick_some, hq]
            simp [hc, hc2]
          rw [heq] at hstop
          simp at hstop
    · have heq : scanChunks ctx (some t) d r total p (c :: rest) st
          = ⟨st.recs, st.clk + 1, st.msgs, true⟩ := by
        simp only [scanChunks, tick_some]
        simp [hc]
      rw [heq] at hstop
      simp at hstop

/-- A directories phase that never aborted has stayed within the cancel
time. -/
theorem scanDirsPhase_clean (ctx : ScanCtx) (t : Nat) (d r : String)
    (es : FSList) (st : ScanOut) (h : st.clk ≤ t)
    (hstop : (scanDirsPhase ctx (some t) d r es st).stopped = false) :
    (scanDirsPhase ctx (some t) d r es st).clk ≤ t := by
  cases es with
  | nil => exact h
  | cons e rest =>
    cases e with
    | file f =>
      exact scanDirsPhase_clean ctx t d r rest st h hstop
    | dir name body =>
      by_cases hc : st.clk < t
      · by_cases hA : (isAppBundlePath (normalizePath (d ++ "/" ++ name)) = true ∨
            normalizePath (d ++ "/" ++ name) = ctx.appPath) ∨
            startsWithDotDot (r ++ name) = true
        · have heq : scanDirsPhase ctx (some t) d r (.cons (.dir name body) rest) st
              = scanDirsPhase ctx (some t) d r rest
                ⟨st.recs, st.clk + 1, st.msgs, false⟩ := by
            simp only [scanDirsPhase, tick_some]
            simp [hc, hA]
          rw [heq] at hstop ⊢
          exact scanDirsPhase_clean ctx t d r rest _ (by simp only; omega) hstop
        · by_cases hI : ctx.ign (r ++ name) = true
          · have heq : scanDirsPhase ctx (some t) d r (.cons (.dir name body) rest) st
                = scanDirsPhase ctx (some t) d r rest
                  ⟨st.recs, st.clk + 1, st.msgs ++ [scanningMsg], false⟩ := by
              simp only [scanDirsPhase, tick_some]
              simp [hc, hA, hI]
            rw [heq] at hstop ⊢
            exact scanDirsPhase_clean ctx t d r rest _ (by simp only; omega) hstop
          · by_cases hc2 : (scanDir ctx (some t) (normalizePath (d ++ "/" ++ name))
                (r ++ name ++ "/") body (st.clk + 1)).clk < t
            · have heq : scanDirsPhase ctx (some t) d r (.cons (.dir name body) rest) st
                  = scanDirsPhase ctx (some t) d r rest
                    ⟨st.recs ++ (scanDir ctx (some t) (normalizePath (d ++ "/" ++ name))
                        (r ++ name ++ "/") body (st.clk + 1)).recs,
                      (scanDir ctx (some t) (normalizePath (d ++ "/" ++ name))
                        (r ++ name ++ "/") body (st.clk + 1)).clk + 1,
                      st.msgs ++ ((scanDir ctx (some t) (normalizePath (d ++ "/" ++ name))
                        (r ++ name ++ "/") body (st.clk + 1)).msgs ++ [scanningMsg]),
                      false⟩ := by
                simp only [scanDirsPhase, tick_some]
                simp [hc, hA, hI, hc2]
              rw [heq] at hstop ⊢
              exact scanDirsPhase_clean ctx t d r rest _ (by simp only; omega) hstop
            · have heq : scanDirsPhase ctx (some t) d r (.cons (.dir name body) rest) st
                  = ⟨st.recs, (scanDir ctx (some t) (normalizePath (d ++ "/" ++ name))
                      (r ++ name ++ "/") body (st.clk + 1)).clk + 1,
                      st.msgs ++ (scanDir ctx (some t) (normalizePath (d ++ "/" ++ name))
                        (r ++ name ++ "/") body (st.clk + 1)).msgs, true⟩ := by
                simp only [scanDirsPhase, tick_some]
                simp [hc, hA, hI, hc2]
              rw [heq] at hstop
              simp at hstop
      · have heq : scanDirsPhase ctx (some t) d r (.cons (.dir name body) rest) st
            = ⟨st.recs, st.clk + 1, st.msgs, true⟩ := by
          simp only [scanDirsPhase, tick_some]
          simp [hc]
        rw [heq] at hstop
        simp at hstop

/-- A directory activation that never aborted has stayed within the cancel
time. -/
theorem scanDir_clean (ctx : ScanCtx) (t : Nat) (d r : String)
    (body : FSDir) (clk : Nat)
    (hstop : (scanDir ctx (some t) d r body clk).stopped = false) :
    (scanDir ctx (some t) d r body clk).clk ≤ t := by
  by_cases hc : clk < t
  · cases body with
    | readErr e =>
      have heq : scanDir ctx (some t) d r (.readErr e) clk
          = ⟨[], clk + 1, [], false⟩ := by
        simp only [scanDir, tick_some]
        simp [hc]
      rw [heq]
      simp only
      omega
    | entries es =>
      by_cases hc2 : clk + 1 < t
      · have heq : scanDir ctx (some t) d r (.entries es) clk
            = (if (scanDirsPhase ctx (some t) d r es
                  ⟨[], clk + 1 + 1, [], false⟩).stopped
               then scanDirsPhase ctx (some t) d r es ⟨[], clk + 1 + 1, [], false⟩
               else scanChunks ctx (some t) d r (filesOf es).length 0
                 (chunksOf (filesOf es))
                 (scanDirsPhase ctx (some t) d r es ⟨[], clk + 1 + 1, [], false⟩)) := by
          simp only [scanDir, tick_some]
          simp [hc, hc2]
        rw [heq] at hstop ⊢
        by_cases hstop2 : (scanDirsPhase ctx (some t) d r es
            ⟨[], clk + 1 + 1, [], false⟩).stopped
        · rw [if_pos hstop2] at hstop
          rw [hstop] at hstop2
          simp at hstop2
        · rw [if_neg hstop2] at hstop ⊢
          have hphase := scanDirsPhase_clean ctx t d r es
            ⟨[], clk + 1 + 1, [], false⟩ (by simp only; omega)
            (by simpa using hstop2)
          exact scanChunks_clean ctx t d r (filesOf es).length
            (chunksOf (filesOf es)) 0 _ hphase hstop
      · have heq : scanDir ctx (some t) d r (.entries es) clk
            = ⟨[], clk + 1 + 1, [], true⟩ := by
          simp only [scanDir, tick_some]
          simp [hc, hc2]
        rw [heq] at hstop
        simp at hstop
  · have heq : scanDir ctx (some t) d r body clk = ⟨[], clk + 1, [], true⟩ := by
      cases body with
      | readErr e =>
        simp only [scanDir, tick_some]
        simp [hc]
      | entries es =>
        simp only [scanDir, tick_some]
        simp [hc]
    rw [heq] at hstop
    simp at hstop

/-- The records a cancelled files phase keeps are an initial segment of what
the uncancelled phase produces (whole batches only). -/
theorem scanChunks_initSeg (ctx : ScanCtx) (t : Nat) (d r : String)
    (total : Nat) (chs : List (List FileNode)) :
    ∀ (p : Nat) (st : ScanOut),
      InitSeg (scanChunks ctx (some t) d r total p chs st).recs
        (scanChunks ctx none d r total p chs st).recs := by
  induction chs with
  | nil => intro p st; exact initSeg_refl _
  | cons c rest ih =>
    intro p st
    by_cases hc : st.clk < t
    · cases hq : runChunkTasks ctx (some t) d r c (st.clk + 1) with
      | mk outs clk2 =>
        by_cases hc2 : clk2 < t
        · have hagree := runChunkTasks_agree ctx t d r c (st.clk + 1)
            (by rw [hq]; omega)
          have heqS : scanChunks ctx (some t) d r total p (c :: rest) st
              = scanChunks ctx (some t) d r total (p + c.length) rest
                ⟨st.recs ++ outs.filterMap id, clk2 + 1,
                  st.msgs ++ [processingMsg (p + c.length) total], false⟩ := by
            simp only [scanChunks, tick_some, hq]
            simp [hc, hc2]
          have heqN : scanChunks ctx none d r total p (c :: rest) st
              = scanChunks ctx none d r total (p + c.length) rest
                ⟨st.recs ++ outs.filterMap id, clk2 + 1,
                  st.msgs ++ [processingMsg (p + c.length) total], false⟩ := by
            simp only [scanChunks, tick_none, ← hagree, hq]
            simp
          rw [heqS, heqN]
          exact ih (p + c.length) _
        · have heqS : scanChunks ctx (some t) d r total p (c :: rest) st
              = ⟨st.recs, clk2 + 1, st.msgs, true⟩ := by
            simp only [scanChunks, tick_some, hq]
            simp [hc, hc2]
          rw [heqS]
          exact scanChunks_recs_acc ctx none d r total (c :: rest) p st
    · have heqS : scanChunks ctx (some t) d r total p (c :: rest) st
          = ⟨st.recs, st.clk + 1, st.msgs, true⟩ := by
        simp only [scanChunks, tick_some]
        simp [hc]
      rw [heqS]
      exact scanChunks_recs_acc ctx none d r total (c :: rest) p st

/-- The records a cancelled directories phase keeps are an initial segment
of what the uncancelled phase produces. -/
theorem scanDirsPhase_initSeg (ctx : ScanCtx) (t : Nat) (d r : String)
    (es : FSList) (st : ScanOut) :
    InitSeg (scanDirsPhase ctx (some t) d r es st).recs
      (scanDirsPhase ctx none d r es st).recs := by
  cases es with
  | nil => exact initSeg_refl _
  | cons e rest =>
    cases e with
    | file f =>
      exact scanDirsPhase_initSeg ctx t d r rest st
    | dir name body =>
      by_cases hc : st.clk < t
      · by_cases hA : (isAppBundlePath (normalizePath (d ++ "/" ++ name)) = true ∨
            normalizePath (d ++ "/" ++ name) = ctx.appPath) ∨
            startsWithDotDot (r ++ name) = true
        · have heqS : scanDirsPhase ctx (some t) d r (.cons (.dir name body) rest) st
              = scanDirsPhase ctx (some t) d r rest
                ⟨st.recs, st.clk + 1, st.msgs, false⟩ := by
            simp only [scanDirsPhase, tick_some]
            simp [hc, hA]
          have heqN : scanDirsPhase ctx none d r (.cons (.dir name body) rest) st
              = scanDirsPhase ctx none d r rest
                ⟨st.recs, st.clk + 1, st.msgs, false⟩ := by
            simp only [scanDirsPhase, tick_none]
            simp [hA]
          rw [heqS, heqN]
          exact scanDirsPhase_initSeg ctx t d r rest _
        · by_cases hI : ctx.ign (r ++ name) = true
          · have heqS : scanDirsPhase ctx (some t) d r (.cons (.dir name body) rest) st
                = scanDirsPhase ctx (some t) d r rest
                  ⟨st.recs, st.clk + 1, st.msgs ++ [scanningMsg], false⟩ := by
              simp only [scanDirsPhase, tick_some]
              simp [hc, hA, hI]
            have heqN : scanDirsPhase ctx none d r (.cons (.dir name body) rest) st
                = scanDirsPhase ctx none d r rest
                  ⟨st.recs, st.clk + 1, st.msgs ++ [scanningMsg], false⟩ := by
              simp only [scanDirsPhase, tick_none]
              simp [hA, hI]
            rw [heqS, heqN]
            exact scanDirsPhase_initSeg ctx t d r rest _
          · by_cases hc2 : (scanDir ctx (some t) (normalizePath (d ++ "/" ++ name))
                (r ++ name ++ "/") body (st.clk + 1)).clk < t
            · have hsub := scanDir_agree ctx t (normalizePath (d ++ "/" ++ name))
                (r ++ name ++ "/") body (st.clk + 1) (by omega)
              have heqS : scanDirsPhase ctx (some t) d r (.cons (.dir name body) rest) st
                  = scanDirsPhase ctx (some t) d r rest
                    ⟨st.recs ++ (scanDir ctx (some t) (normalizePath (d ++ "/" ++ name))
                        (r ++ name ++ "/") body (st.clk + 1)).recs,
                      (scanDir ctx (some t) (normalizePath (d ++ "/" ++ name))
                        (r ++ name ++ "/") body (st.clk + 1)).clk + 1,
                      st.msgs ++ ((scanDir ctx (some t) (normalizePath (d ++ "/" ++ name))
                        (r ++ name ++ "/") body (st.clk + 1)).msgs ++ [scanningMsg]),
                      false⟩ := by
                simp only [scanDirsPhase, tick_some]
                simp [hc, hA, hI, hc2]
              have heqN : scanDirsPhase ctx none d r (.cons (.dir name body) rest) st
                  = scanDirsPhase ctx none d r rest
                    ⟨st.recs ++ (scanDir ctx (some t) (normalizePath (d ++ "/" ++ name))
                        (r ++ name ++ "/") body (st.clk + 1)).recs,
                      (scanDir ctx (some t) (normalizePath (d ++ "/" ++ name))
                        (r ++ name ++ "/") body (st.clk + 1)).clk + 1,
                      st.msgs ++ ((scanDir ctx (some t) (normalizePath (d ++ "/" ++ name))
                        (r ++ name ++ "/") body (st.clk + 1)).msgs ++ [scanningMsg]),
                      false⟩ := by
                simp only [scanDirsPhase, tick_none, ← hsub]
                simp [hA, hI]
              rw [heqS, heqN]
              exact scanDirsPhase_initSeg ctx t d r rest _
            · have heqS : scanDirsPhase ctx (some t) d r (.cons (.dir name body) rest) st
                  = ⟨st.recs, (scanDir ctx (some t) (normalizePath (d ++ "/" ++ name))
                      (r ++ name ++ "/") body (st.clk + 1)).clk + 1,
                      st.msgs ++ (scanDir ctx (some t) (normalizePath (d ++ "/" ++ name))
                        (r ++ name ++ "/") body (st.clk + 1)).msgs, true⟩ := by
                simp only [scanDirsPhase, tick_some]
                simp [hc, hA, hI, hc2]
              rw [heqS]
              exact scanDirsPhase_recs_acc ctx none d r (.cons (.dir name body) rest) st
      · have heqS : scanDirsPhase ctx (some t) d r (.cons (.dir name body) rest) st
            = ⟨st.recs, st.clk + 1, st.msgs, true⟩ := by
          simp only [scanDirsPhase, tick_some]
          simp [hc]
        rw [heqS]
        exact scanDirsPhase_recs_acc ctx none d r (.cons (.dir name body) rest) st

/-- The records a cancelled directory activation returns are an initial
segment of the full scan's records: only batches and subtrees that
completed before the cancel are kept. -/
theorem scanDir_initSeg (ctx : ScanCtx) (t : Nat) (d r : String)
    (body : FSDir) (clk : Nat) :
    InitSeg (scanDir ctx (some t) d r body clk).recs
      (scanDir ctx none d r body clk).recs := by
  by_cases hc : clk < t
  · cases body with
    | readErr e =>
      have : scanDir ctx (some t) d r (.readErr e) clk
          = scanDir ctx none d r (.readErr e) clk := by
        simp [scanDir, tick_some, tick_none, hc]
      rw [this]
      exact initSeg_refl _
    | entries es =>
      by_cases hc2 : clk + 1 < t
      · have heqS : scanDir ctx (some t) d r (.entries es) clk
            = (if (scanDirsPhase ctx (some t) d r es
                  ⟨[], clk + 1 + 1, [], false⟩).stopped
               then scanDirsPhase ctx (some t) d r es ⟨[], clk + 1 + 1, [], false⟩
               else scanChunks ctx (some t) d r (filesOf es).length 0
                 (chunksOf (filesOf es))
                 (scanDirsPhase ctx (some t) d r es ⟨[], clk + 1 + 1, [], false⟩)) := by
          simp only [scanDir, tick_some]
          simp [hc, hc2]
        have heqN : scanDir ctx none d r (.entries es) clk
            = (if (scanDirsPhase ctx none d r es
                  ⟨[], clk + 1 + 1, [], false⟩).stopped
               then scanDirsPhase ctx none d r es ⟨[], clk + 1 + 1, [], false⟩
               else scanChunks ctx none d r (filesOf es).length 0
                 (chunksOf (filesOf es))
                 (scanDirsPhase ctx none d r es ⟨[], clk + 1 + 1, [], false⟩)) := by
          simp only [scanDir, tick_none]
          simp
        rw [heqS, heqN]
        by_cases hstop : (scanDirsPhase ctx (some t) d r es
            ⟨[], clk + 1 + 1, [], false⟩).stopped
        · rw [if_pos hstop]
          have hbp := scanDirsPhase_initSeg ctx t d r es ⟨[], clk + 1 + 1, [], false⟩
          by_cases hstopN : (scanDirsPhase ctx none d r es
              ⟨[], clk + 1 + 1, [], false⟩).stopped
          · rw [if_pos hstopN]
            exact hbp
          · rw [if_neg hstopN]
            exact initSeg_trans hbp
              (scanChunks_recs_acc ctx none d r (filesOf es).length
                (chunksOf (filesOf es)) 0 _)
        · rw [if_neg hstop]
          have hclean := scanDirsPhase_clean ctx t d r es
            ⟨[], clk + 1 + 1, [], false⟩ (by simp only; omega)
            (by simpa using hstop)
          have hphase := scanDirsPhase_agree ctx t d r es
            ⟨[], clk + 1 + 1, [], false⟩ hclean
          have hstopN : (scanDirsPhase ctx none d r es
              ⟨[], clk + 1 + 1, [], false⟩).stopped = false := by
            rw [← hphase]
            simpa using hstop
          rw [hstopN]
          simp only [Bool.false_eq_true, if_false]
          rw [← hphase]
          exact scanChunks_initSeg ctx t d r (filesOf es).length
            (chunksOf (filesOf es)) 0 _
      · have heqS : scanDir ctx (some t) d r (.entries es) clk
            = ⟨[], clk + 1 + 1, [], true⟩ := by
          simp only [scanDir, tick_some]
          simp [hc, hc2]
        rw [heqS]
        exact initSeg_nil _
  · have heqS : scanDir ctx (some t) d r body clk = ⟨[], clk + 1, [], true⟩ := by
      cases body with
      | readErr e =>
        simp only [scanDir, tick_some]
        simp [hc]
      | entries es =>
        simp only [scanDir, tick_some]
        simp [hc]
    rw [heqS]
    exact initSeg_nil _

/-- Every message in the list is a `processing` status message. -/
def processingOnly (ms : List Msg) : Prop :=
  ∀ m ∈ ms, ∃ s, m = Msg.fps "processing" s

theorem processingOnly_nil : processingOnly [] := by
  intro m hm
  cases hm

theorem processingOnly_append {a b : List Msg} (ha : processingOnly a)
    (hb : processingOnly b) : processingOnly (a ++ b) := by
  intro m hm
  rcases List.mem_append.mp hm with h | h
  · exact ha m h
  · exact hb m h

theorem processingOnly_scanning : processingOnly [scanningMsg] := by
  intro m hm
  rcases List.mem_singleton.mp hm with rfl
  exact ⟨_, rfl⟩

theorem processingOnly_processingMsg (p total : Nat) :
    processingOnly [processingMsg p total] := by
  intro m hm
  rcases List.mem_singleton.mp hm with rfl
  exact ⟨_, rfl⟩

/-- The files phase only sends `processing` status messages. -/
theorem scanChunks_msgs (ctx : ScanCtx) (cab : Option Nat) (d r : String)
    (total : Nat) (chs : List (List FileNode)) :
    ∀ (p : Nat) (st : ScanOut), processingOnly st.msgs →
      processingOnly (scanChunks ctx cab d r total p chs st).msgs := by
  induction chs with
  | nil => intro p st h; exact h
  | cons c rest ih =>
    intro p st h
    cases ht : tick cab st.clk with
    | mk ok clk1 =>
      cases ok with
      | false =>
        simp only [scanChunks, ht, Bool.not_false, if_true]
        exact h
      | true =>
        cases hq : runChunkTasks ctx cab d r c clk1 with
        | mk outs clk2 =>
          cases ht2 : tick cab clk2 with
          | mk ok2 clk3 =>
            cases ok2 with
            | false =>
              simp only [scanChunks, ht, hq, ht2, Bool.not_false, Bool.not_true, Bool.false_eq_true,
                if_true, if_false]
              exact h
            | true =>
              simp only [scanChunks, ht, hq, ht2, Bool.not_false, Bool.not_true, Bool.false_eq_true,
                if_true, if_false]
              exact ih (p + c.length) _
                (processingOnly_append h (processingOnly_processingMsg _ _))

mutual
/-- A directory activation only sends `processing` status messages. -/
theorem scanDir_msgs (ctx : ScanCtx) (cab : Option Nat) (d r : String)
    (body : FSDir) (clk : Nat) :
    processingOnly (scanDir ctx cab d r body clk).msgs := by
  cases ht : tick cab clk with
  | mk ok clk1 =>
    cases ok with
    | false =>
      simp only [scanDir, ht, Bool.not_false, if_true]
      exact processingOnly_nil
    | true =>
      cases body with
      | readErr e =>
        simp only [scanDir, ht, Bool.not_true, Bool.false_eq_true, if_false]
        exact processingOnly_nil
      | entries es =>
        cases ht2 : tick cab clk1 with
        | mk ok2 clk2 =>
          cases ok2 with
          | false =>
            simp only [scanDir, ht, ht2, Bool.not_false, Bool.not_true,
              Bool.false_eq_true, if_true, if_false]
            exact processingOnly_nil
          | true =>
            simp only [scanDir, ht, ht2, Bool.not_false, Bool.not_true,
              Bool.false_eq_true, if_true, if_false]
            have hphase := scanDirsPhase_msgs ctx cab d r es
              ⟨[], clk2, [], false⟩ processingOnly_nil
            split
            · exact hphase
            · exact scanChunks_msgs ctx cab d r (filesOf es).length
                (chunksOf (filesOf es)) 0 _ hphase

/-- The directories phase only adds `processing` status messages. -/
theorem scanDirsPhase_msgs (ctx : ScanCtx) (cab : Option Nat) (d r : String)
    (es : FSList) (st : ScanOut) (h : processingOnly st.msgs) :
    processingOnly (scanDirsPhase ctx cab d r es st).msgs := by
  cases es with
  | nil => exact h
  | cons e rest =>
    cases e with
    | file f => exact scanDirsPhase_msgs ctx cab d r rest st h
    | dir name body =>
      cases ht : tick cab st.clk with
      | mk ok clk1 =>
        cases ok with
        | false =>
          simp only [scanDirsPhase, ht, Bool.not_false, if_true]
          exact h
        | true =>
          simp only [scanDirsPhase, ht, Bool.not_true, Bool.false_eq_true, if_false]
          split
          · exact scanDirsPhase_msgs ctx cab d r rest _ h
          · split
            · exact scanDirsPhase_msgs ctx cab d r rest _
                (processingOnly_append h processingOnly_scanning)
            · have hsub := scanDir_msgs ctx cab
                (normalizePath (d ++ "/" ++ name)) (r ++ name ++ "/") body clk1
              cases ht2 : tick cab
                  (scanDir ctx cab (normalizePath (d ++ "/" ++ name))
                    (r ++ name ++ "/") body clk1).clk with
              | mk ok2 clk2 =>
                cases ok2 with
                | false =>
                  simp only [ht2, Bool.not_false, if_true]
                  exact processingOnly_append h hsub
                | true =>
                  simp only [ht2, Bool.not_true, Bool.false_eq_true, if_false]
                  exact scanDirsPhase_msgs ctx cab d r rest _
                    (processingOnly_append (processingOnly_append h hsub)
                      processingOnly_scanning)
end

/-! ## Fixtures for concrete witnesses and counterexamples -/

/-- A session context with no ignore rules, no encoder and an app path that
never collides with the example trees. -/
def exCtx : ScanCtx :=
  { binExts := [], encoder := none, ign := fun _ => false,
    shouldExcl := fun _ => false, appPath := "/opt/pastemax" }

/-- A small readable text file. -/
def exFileA : FileNode :=
  { name := "a.txt", statResult := .ok 5, readResult := .ok "hello" }

/-- The body of the example subdirectory `d`, holding only `a.txt`. -/
def exSubBody : FSDir := .entries (.cons (.file exFileA) .nil)

/-- The example root: one subdirectory `d` with one file. -/
def exRoot : FSDir := .entries (.cons (.dir "d" exSubBody) .nil)

/-- The record the full scan produces for `exFileA`. -/
def exRecA : FileRecord :=
  { name := "a.txt", path := "/root/d/a.txt", relativePath := "d/a.txt",
    size := 5, content := "hello", tokenCount := 2,
    isBinary := false, isSkipped := false }

/-- Claim C1, counterexample.  With a cancel arriving at flag-read 10 — after
the subdirectory activation has fully processed `a.txt` and merged its record
(flag-read 9 still saw the scan live) but before the parent rechecks the flag
— the subdirectory activation returns the accumulated record, yet the
top-level walk drops it and returns the empty partial result, and the
`request-file-list` handler returns early after the cancelled scan without
ever sending a `file-list-data` message: the records accumulated before the
cancellation are neither all preserved in the top-level partial result nor
delivered to the caller. -/
theorem c1_counterexample :
    (scanDir exCtx none "/root" "" exRoot 0).recs = [exRecA]
    ∧ (scanDir exCtx (some 10) "/root/d" "d/" exSubBody 3).recs = [exRecA]
    ∧ (scanDir exCtx (some 10) "/root/d" "d/" exSubBody 3).clk = 10
    ∧ (scanDir exCtx (some 10) "/root" "" exRoot 0).recs = []
    ∧ (requestFileList exCtx (some 10) "/root" exRoot ⟨false, false⟩).2
        = [initialScanMsg,
           Msg.fps "processing" "Processing files... 1/1 (Press ESC to cancel)"] := by
  refine ⟨by decide, by decide, by decide, by decide, by decide⟩

/-- Claim C1 (amended): a cancel taking effect mid-scan stops the walk at the
next flag check; the top-level walk returns an initial segment of the full
scan's records — only batches and subtrees that fully completed before the
cancel; the cancel entry point itself sends the `cancelled` status to the
caller; and the handler then returns early, its trace being the initial
status followed by the scan's progress messages only — every message it sent
is a `processing` status, so no `complete` status and no `file-list-data`
(hence no partial records) reach the caller. -/
theorem c1_cancellation (ctx : ScanCtx) (t : Nat) (d : String) (body : FSDir)
    (w : Bool)
    (hmid : t ≤ (scanDir ctx (some t) d "" body 0).clk) :
    InitSeg (scanDir ctx (some t) d "" body 0).recs
      (scanDir ctx none d "" body 0).recs
    ∧ cancelDirectoryLoading true
        = ([Msg.fps "cancelled" "Directory loading cancelled"], false)
    ∧ (requestFileList ctx (some t) d body ⟨false, w⟩).2
        = initialScanMsg :: (scanDir ctx (some t) d "" body 0).msgs
    ∧ processingOnly ((requestFileList ctx (some t) d body ⟨false, w⟩).2) := by
  have hnot : ¬ ((scanDir ctx (some t) d "" body 0).clk < t) := by omega
  have htrace : (requestFileList ctx (some t) d body ⟨false, w⟩).2
      = initialScanMsg :: (scanDir ctx (some t) d "" body 0).msgs := by
    simp only [requestFileList, tick_some]
    simp [hnot]
  refine ⟨scanDir_initSeg ctx t d "" body 0, rfl, htrace, ?_⟩
  rw [htrace]
  intro m hm
  rcases List.mem_cons.mp hm with rfl | hm2
  · exact ⟨_, rfl⟩
  · exact scanDir_msgs ctx (some t) d "" body 0 m hm2

/-- Claim C1, witness: the amended theorem applied to the concrete cancelled
session of the counterexample. -/
theorem c1_cancellation_witness :
    10 ≤ (scanDir exCtx (some 10) "/root" "" exRoot 0).clk
    ∧ (InitSeg (scanDir exCtx (some 10) "/root" "" exRoot 0).recs
        (scanDir exCtx none "/root" "" exRoot 0).recs
      ∧ cancelDirectoryLoading true
          = ([Msg.fps "cancelled" "Directory loading cancelled"], false)
      ∧ (requestFileList exCtx (some 10) "/root" exRoot ⟨false, false⟩).2
          = initialScanMsg :: (scanDir exCtx (some 10) "/root" "" exRoot 0).msgs
      ∧ processingOnly ((requestFileList exCtx (some 10) "/root" exRoot
          ⟨false, false⟩).2)) :=
  ⟨by decide, c1_cancellation exCtx 10 "/root" exRoot false (by decide)⟩

/-! ## ASCII case facts and the record view compared across pipelines -/

/-- `Char.ofNat` at a valid code point reads back as that code point. -/
theorem char_toNat_ofNat_valid (n : Nat) (h : n.isValidChar) :
    (Char.ofNat n).toNat = n := by
  simp only [Char.ofNat, dif_pos h, Char.ofNatAux, Char.toNat]
  rfl

/-- Upper-casing is unaffected by prior lower-casing (ASCII case mapping). -/
theorem char_upper_lower (c : Char) : c.toLower.toUpper = c.toUpper := by
  unfold Char.toLower Char.toUpper
  dsimp only
  by_cases h : c.toNat ≥ 65 ∧ c.toNat ≤ 90
  · rw [if_pos h]
    have hv : (c.toNat + 32).isValidChar := by
      left
      omega
    have ht : (Char.ofNat (c.toNat + 32)).toNat = c.toNat + 32 :=
      char_toNat_ofNat_valid _ hv
    rw [ht, if_pos (by omega : c.toNat + 32 ≥ 97 ∧ c.toNat + 32 ≤ 122),
      if_neg (by omega : ¬(c.toNat ≥ 97 ∧ c.toNat ≤ 122))]
    have h32 : c.toNat + 32 - 32 = c.toNat := by omega
    rw [h32]
    exact Char.ofNat_toNat c
  · rw [if_neg h]

theorem map_upper_lower (l : List Char) :
    (l.map Char.toLower).map Char.toUpper = l.map Char.toUpper := by
  induction l with
  | nil => rfl
  | cons c rest ih => simp [char_upper_lower c, ih]

/-- `toUpperCase` after `toLowerCase` equals plain `toUpperCase`. -/
theorem jsToUpper_jsToLower (s : String) :
    jsToUpper (jsToLower s) = jsToUpper s :=
  congrArg String.mk (map_upper_lower s.data)

/-- The fields claim C2 compares: name, relativePath, size, isBinary,
isSkipped, fileType, content, tokenCount and error. -/
structure RecView where
  name : String
  relativePath : String
  size : Nat
  isBinary : Bool
  isSkipped : Bool
  fileType : Option String
  content : String
  tokenCount : Nat
  error : Option String
deriving Repr, DecidableEq

/-- Project a record onto the compared fields. -/
def recView (rec : FileRecord) : RecView :=
  { name := rec.name, relativePath := rec.relativePath, size := rec.size,
    isBinary := rec.isBinary, isSkipped := rec.isSkipped,
    fileType := rec.fileType, content := rec.content,
    tokenCount := rec.tokenCount, error := rec.error }

/-- A session context whose binary-extension set holds the dotted
lower-cased extension `".png"` (the key convention of the in-source
classifier `isBinaryFile`). -/
def pngCtx : ScanCtx :=
  { binExts := [".png"], encoder := none, ign := fun _ => false,
    shouldExcl := fun _ => false, appPath := "/opt/pastemax" }

/-- A small readable file with a binary extension. -/
def pngFile : FileNode :=
  { name := "b.png", statResult := .ok 10, readResult := .ok "hi" }

/-! ## Claim C5: the oversized branch -/

/-- Claim C5: a file whose `stat` size exceeds the 5 MiB ceiling is recorded
with `isSkipped = true`, empty content, `tokenCount = 0` (and no binary
flag), whatever its extension, in both the scanner batch task and the
watcher single-file pipeline.  The admission hypotheses say the path passes
the app-bundle/containment checks and is not ignored, so that a record is
produced at all. -/
theorem c5_oversized (ctx : ScanCtx) (d r : String) (f : FileNode)
    (clk sz : Nat) (rd : Except JsError String)
    (hstat : f.statResult = .ok sz)
    (hsz : sz > MAX_FILE_SIZE)
    (hApp : isAppBundlePath (normalizePath (d ++ "/" ++ f.name)) = false)
    (hAppPath : ¬ normalizePath (d ++ "/" ++ f.name) = ctx.appPath)
    (hDD : startsWithDotDot (r ++ f.name) = false)
    (hI : ctx.ign (r ++ f.name) = false) :
    ((chunkFileTask ctx none d r f clk).1.map
      (fun rec => (rec.isSkipped, rec.content, rec.tokenCount, rec.isBinary)))
      = some (true, "", 0, false)
    ∧ ((processSingleFile ctx (normalizePath (d ++ "/" ++ f.name))
        (r ++ f.name) (.ok sz) rd).map
      (fun rec => (rec.isSkipped, rec.content, rec.tokenCount, rec.isBinary)))
      = some (true, "", 0, false) := by
  constructor
  · simp [chunkFileTask, tick_none, hstat, hsz, hApp, hAppPath, hDD, hI]
  · simp [processSingleFile, hsz, hDD, hI]

/-- A 6 MiB file with a binary extension. -/
def bigPng : FileNode :=
  { name := "big.png", statResult := .ok 6291456, readResult := .ok "x" }

/-- Claim C5, witness: a 6 MiB file with a binary extension is skipped with
empty content and zero tokens by both pipelines. -/
theorem c5_oversized_witness :
    ((chunkFileTask pngCtx none "/root" "" bigPng 0).1.map
      (fun rec => (rec.isSkipped, rec.content, rec.tokenCount, rec.isBinary)))
      = some (true, "", 0, false)
    ∧ ((processSingleFile pngCtx (normalizePath ("/root" ++ "/" ++ bigPng.name))
        ("" ++ bigPng.name) (.ok 6291456) (.ok "x")).map
      (fun rec => (rec.isSkipped, rec.content, rec.tokenCount, rec.isBinary)))
      = some (true, "", 0, false) := by
  refine c5_oversized pngCtx "/root" "" bigPng 0 6291456 (.ok "x") rfl ?_ ?_ ?_ ?_ ?_
  · decide
  · decide
  · decide
  · decide
  · decide


/-! ## Claim C4: the binary-extension branch -/

/-- Claim C4 (amended): for a file whose `stat` size is within the ceiling
and which passes the admission checks, the scanner batch task records
`isBinary = true` with empty content and zero tokens whenever the dotted
lower-cased extension (the key `isBinaryFile` computes) is in the
binary-extension set; the watcher pipeline does the same only when the
extension without its leading dot (the key `processSingleFile` computes) is
in the set. -/
theorem c4_binary (ctx : ScanCtx) (d r : String) (f : FileNode)
    (clk sz : Nat)
    (hstat : f.statResult = .ok sz)
    (hsz : ¬ sz > MAX_FILE_SIZE)
    (hApp : isAppBundlePath (normalizePath (d ++ "/" ++ f.name)) = false)
    (hAppPath : ¬ normalizePath (d ++ "/" ++ f.name) = ctx.appPath)
    (hDD : startsWithDotDot (r ++ f.name) = false)
    (hI : ctx.ign (r ++ f.name) = false) :
    (ctx.binExts.contains
        (jsToLower (extnameOf (normalizePath (d ++ "/" ++ f.name)))) = true →
      ((chunkFileTask ctx none d r f clk).1.map
        (fun rec => (rec.isBinary, rec.content, rec.tokenCount)))
        = some (true, "", 0))
    ∧ (ctx.binExts.contains
        (jsToLower ((extnameOf (normalizePath (d ++ "/" ++ f.name))).drop 1)) = true →
      ((processSingleFile ctx (normalizePath (d ++ "/" ++ f.name))
          (r ++ f.name) (.ok sz) f.readResult).map
        (fun rec => (rec.isBinary, rec.content, rec.tokenCount)))
        = some (true, "", 0)) := by
  constructor
  · intro hbin
    have hbin2 : jsToLower (extnameOf (normalizePath (d ++ "/" ++ f.name)))
        ∈ ctx.binExts := by simpa using hbin
    simp [chunkFileTask, tick_none, isBinaryFile, hstat, hsz, hApp, hAppPath,
      hDD, hI, hbin2]
  · intro hbin
    have hbin2 : jsToLower ((extnameOf (normalizePath (d ++ "/" ++ f.name))).drop 1)
        ∈ ctx.binExts := by simpa using hbin
    simp [processSingleFile, hsz, hDD, hI, hbin2]

/-- A session context whose binary-extension set holds both the dotted and
the undotted form, making the two pipelines agree. -/
def bothCtx : ScanCtx :=
  { binExts := [".png", "png"], encoder := none, ign := fun _ => false,
    shouldExcl := fun _ => false, appPath := "/opt/pastemax" }

/-- Claim C4, witness: with a set holding both extension spellings, both
pipelines mark `b.png` binary with empty content and zero tokens. -/
theorem c4_binary_witness :
    (bothCtx.binExts.contains
        (jsToLower (extnameOf (normalizePath ("/root" ++ "/" ++ pngFile.name)))) = true →
      ((chunkFileTask bothCtx none "/root" "" pngFile 0).1.map
        (fun rec => (rec.isBinary, rec.content, rec.tokenCount)))
        = some (true, "", 0))
    ∧ (bothCtx.binExts.contains
        (jsToLower ((extnameOf (normalizePath ("/root" ++ "/" ++ pngFile.name))).drop 1)) = true →
      ((processSingleFile bothCtx (normalizePath ("/root" ++ "/" ++ pngFile.name))
          ("" ++ pngFile.name) (.ok 10) pngFile.readResult).map
        (fun rec => (rec.isBinary, rec.content, rec.tokenCount)))
        = some (true, "", 0)) := by
  exact c4_binary bothCtx "/root" "" pngFile 0 10 rfl (by decide) (by decide)
    (by decide) (by decide) (by decide)

/-- Claim C4, counterexample.  With the binary set holding the dotted
lower-cased extension `".png"` — the spelling the in-source classifier
`isBinaryFile` looks up, so `b.png`'s extension is in the set and the claim
applies — the scanner batch task records the file as binary with empty
content, but the watcher pipeline, which drops the leading dot before the
lookup, reads the file and records `isBinary = false` with its content. -/
theorem c4_counterexample :
    pngCtx.binExts.contains
      (jsToLower (extnameOf (normalizePath ("/root" ++ "/" ++ pngFile.name)))) = true
    ∧ ((chunkFileTask pngCtx none "/root" "" pngFile 0).1.map
        (fun rec => (rec.isBinary, rec.content, rec.tokenCount)))
        = some (true, "", 0)
    ∧ ((processSingleFile pngCtx (normalizePath ("/root" ++ "/" ++ pngFile.name))
        ("" ++ pngFile.name) (.ok 10) (.ok "hi")).map
        (fun rec => (rec.isBinary, rec.content, rec.tokenCount)))
        = some (false, "hi", 1) := by
  refine ⟨by decide, by decide, by decide⟩

/-! ## Claim C2: watcher pipeline versus scanner batch task -/

/-- Claim C2 (amended): on a path whose basename is its dirent name, that
passes the app-bundle/containment checks, whose `stat` and `read` succeed,
and whose extension's membership in the binary set does not depend on the
leading dot (the two pipelines look up different spellings), the watcher
pipeline produces the same record as the scanner batch task on the compared
fields — name, relativePath, size, isBinary, isSkipped, fileType, content,
tokenCount, error — including for ignored and out-of-root paths, where both
produce nothing. -/
theorem c2_pipeline_agreement (ctx : ScanCtx) (d r : String) (f : FileNode)
    (clk sz : Nat) (content : String)
    (hname : basenameOf (normalizePath (d ++ "/" ++ f.name)) = f.name)
    (hApp : isAppBundlePath (normalizePath (d ++ "/" ++ f.name)) = false)
    (hAppPath : ¬ normalizePath (d ++ "/" ++ f.name) = ctx.appPath)
    (hstat : f.statResult = .ok sz)
    (hread : f.readResult = .ok content)
    (hext : ctx.binExts.contains
        (jsToLower (extnameOf (normalizePath (d ++ "/" ++ f.name))))
      = ctx.binExts.contains
        (jsToLower ((extnameOf (normalizePath (d ++ "/" ++ f.name))).drop 1))) :
    ((chunkFileTask ctx none d r f clk).1.map recView)
      = ((processSingleFile ctx (normalizePath (d ++ "/" ++ f.name))
          (r ++ f.name) f.statResult f.readResult).map recView) := by
  by_cases hDD : startsWithDotDot (r ++ f.name) = true
  · simp [chunkFileTask, processSingleFile, tick_none, hDD]
  · by_cases hI : ctx.ign (r ++ f.name) = true
    · simp [chunkFileTask, processSingleFile, tick_none, hDD, hI, hApp, hAppPath]
    · by_cases hsz : sz > MAX_FILE_SIZE
      · simp [chunkFileTask, processSingleFile, tick_none, hstat, hread, hApp,
          hAppPath, hDD, hI, hsz, recView, hname]
      · by_cases hbin : jsToLower (extnameOf (normalizePath (d ++ "/" ++ f.name)))
            ∈ ctx.binExts
        · have hbinB : ctx.binExts.contains
              (jsToLower (extnameOf (normalizePath (d ++ "/" ++ f.name)))) = true := by
            simpa using hbin
          have hbin2 : jsToLower ((extnameOf (normalizePath (d ++ "/" ++ f.name))).drop 1)
              ∈ ctx.binExts := by
            have h2 := hext ▸ hbinB
            simpa using h2
          simp [chunkFileTask, processSingleFile, tick_none, isBinaryFile,
            hstat, hread, hApp, hAppPath, hDD, hI, hsz, hbin, hbin2, recView,
            hname, jsToUpper_jsToLower]
        · have hbin2 : ¬ (jsToLower ((extnameOf (normalizePath (d ++ "/" ++ f.name))).drop 1)
              ∈ ctx.binExts) := by
            intro hc
            apply hbin
            have hcB : ctx.binExts.contains
                (jsToLower ((extnameOf (normalizePath (d ++ "/" ++ f.name))).drop 1)) = true := by
              simpa using hc
            have h2 := hext.symm ▸ hcB
            simpa using h2
          simp [chunkFileTask, processSingleFile, tick_none, isBinaryFile,
            hstat, hread, hApp, hAppPath, hDD, hI, hsz, hbin, hbin2, recView,
            hname]

/-- Claim C2, witness: the amended agreement at a concrete readable text
file (and a context whose binary set holds both extension spellings). -/
theorem c2_pipeline_agreement_witness :
    ((chunkFileTask bothCtx none "/root" "" exFileA 0).1.map recView)
      = ((processSingleFile bothCtx (normalizePath ("/root" ++ "/" ++ exFileA.name))
          ("" ++ exFileA.name) exFileA.statResult exFileA.readResult).map recView) := by
  exact c2_pipeline_agreement bothCtx "/root" "" exFileA 0 5 "hello"
    (by decide) (by decide) (by decide) rfl rfl (by decide)

/-- A file whose `stat` call throws with code `EACCES`. -/
def errFile : FileNode :=
  { name := "c.txt", statResult := .error ⟨"EACCES", "boom"⟩,
    readResult := .error ⟨"EACCES", "boom"⟩ }

/-- Claim C2, counterexample.  Two divergences between the watcher pipeline
and the scanner batch task on the same path: (1) with the binary set holding
the dotted extension `".png"`, the scanner records `b.png` as binary while
the watcher reads it as a normal file; (2) on a file whose `stat` throws,
the scanner maps the error code to a fixed reason while the watcher
interpolates the error message, so the `error` fields differ. -/
theorem c2_counterexample :
    ¬ (((chunkFileTask pngCtx none "/root" "" pngFile 0).1.map recView)
      = ((processSingleFile pngCtx (normalizePath ("/root" ++ "/" ++ pngFile.name))
          ("" ++ pngFile.name) pngFile.statResult pngFile.readResult).map recView))
    ∧ ((chunkFileTask pngCtx none "/root" "" errFile 0).1.map
        (fun rec => rec.error)) = some (some "Could not read file")
    ∧ ((processSingleFile pngCtx (normalizePath ("/root" ++ "/" ++ errFile.name))
        ("" ++ errFile.name) errFile.statResult errFile.readResult).map
        (fun rec => rec.error)) = some (some "Error: boom") := by
  refine ⟨by decide, by decide, by decide⟩

/-! ## Claim C10: I/O-error records report size 0 and not binary -/

/-- Claim C10: when the per-file `stat` throws — whatever the file's
extension — or when the `read` throws — whatever the `stat`-reported size —
the emitted record has `size = 0`, `isBinary = false` and
`isSkipped = true`, in both the scanner batch task (`f1` stat error, `f2`
read error) and the watcher pipeline. -/
theorem c10_io_error_records (ctx : ScanCtx) (d r : String)
    (f1 f2 : FileNode) (clk sz : Nat) (e1 e2 : JsError)
    (rd : Except JsError String)
    (h1 : f1.statResult = .error e1)
    (h2 : f2.statResult = .ok sz)
    (h2sz : ¬ sz > MAX_FILE_SIZE)
    (h2bin : isBinaryFile ctx.binExts (normalizePath (d ++ "/" ++ f2.name)) = false)
    (h2binW : ctx.binExts.contains
      (jsToLower ((extnameOf (normalizePath (d ++ "/" ++ f2.name))).drop 1)) = false)
    (h2read : f2.readResult = .error e2)
    (hApp1 : isAppBundlePath (normalizePath (d ++ "/" ++ f1.name)) = false)
    (hAppPath1 : ¬ normalizePath (d ++ "/" ++ f1.name) = ctx.appPath)
    (hDD1 : startsWithDotDot (r ++ f1.name) = false)
    (hI1 : ctx.ign (r ++ f1.name) = false)
    (hApp2 : isAppBundlePath (normalizePath (d ++ "/" ++ f2.name)) = false)
    (hAppPath2 : ¬ normalizePath (d ++ "/" ++ f2.name) = ctx.appPath)
    (hDD2 : startsWithDotDot (r ++ f2.name) = false)
    (hI2 : ctx.ign (r ++ f2.name) = false) :
    ((chunkFileTask ctx none d r f1 clk).1.map
      (fun rec => (rec.size, rec.isBinary, rec.isSkipped)))
      = some (0, false, true)
    ∧ ((chunkFileTask ctx none d r f2 clk).1.map
      (fun rec => (rec.size, rec.isBinary, rec.isSkipped)))
      = some (0, false, true)
    ∧ ((processSingleFile ctx (normalizePath (d ++ "/" ++ f1.name))
        (r ++ f1.name) (.error e1) rd).map
      (fun rec => (rec.size, rec.isBinary, rec.isSkipped)))
      = some (0, false, true)
    ∧ ((processSingleFile ctx (normalizePath (d ++ "/" ++ f2.name))
        (r ++ f2.name) (.ok sz) (.error e2)).map
      (fun rec => (rec.size, rec.isBinary, rec.isSkipped)))
      = some (0, false, true) := by
  have h2bin2 : ¬ (jsToLower ((extnameOf (normalizePath (d ++ "/" ++ f2.name))).drop 1)
      ∈ ctx.binExts) := by
    simpa using h2binW
  refine ⟨?_, ?_, ?_, ?_⟩
  · simp [chunkFileTask, tick_none, h1, hApp1, hAppPath1, hDD1, hI1]
  · simp [chunkFileTask, tick_none, h2, h2sz, h2bin, h2read, hApp2, hAppPath2,
      hDD2, hI2]
  · simp [processSingleFile, hDD1, hI1]
  · simp [processSingleFile, h2sz, hDD2, hI2, h2bin2]

/-- A large binary-extension file whose `stat` throws (size never seen). -/
def errStatPng : FileNode :=
  { name := "d.png", statResult := .error ⟨"EPERM", "denied"⟩,
    readResult := .error ⟨"EPERM", "denied"⟩ }

/-- A text file whose `stat` reports 42 bytes but whose `read` throws. -/
def errReadTxt : FileNode :=
  { name := "e.txt", statResult := .ok 42,
    readResult := .error ⟨"ENOENT", "gone"⟩ }

/-- Claim C10, witness: the skipped records for a stat failure on a
binary-extension file and a read failure on a 42-byte file all report
size 0 and not binary, in both pipelines. -/
theorem c10_io_error_records_witness :
    ((chunkFileTask pngCtx none "/root" "" errStatPng 0).1.map
      (fun rec => (rec.size, rec.isBinary, rec.isSkipped)))
      = some (0, false, true)
    ∧ ((chunkFileTask pngCtx none "/root" "" errReadTxt 0).1.map
      (fun rec => (rec.size, rec.isBinary, rec.isSkipped)))
      = some (0, false, true)
    ∧ ((processSingleFile pngCtx (normalizePath ("/root" ++ "/" ++ errStatPng.name))
        ("" ++ errStatPng.name) (.error ⟨"EPERM", "denied"⟩)
        (.error ⟨"EPERM", "denied"⟩)).map
      (fun rec => (rec.size, rec.isBinary, rec.isSkipped)))
      = some (0, false, true)
    ∧ ((processSingleFile pngCtx (normalizePath ("/root" ++ "/" ++ errReadTxt.name))
        ("" ++ errReadTxt.name) (.ok 42) (.error ⟨"ENOENT", "gone"⟩)).map
      (fun rec => (rec.size, rec.isBinary, rec.isSkipped)))
      = some (0, false, true) := by
  exact c10_io_error_records pngCtx "/root" "" errStatPng errReadTxt 0 42
    ⟨"EPERM", "denied"⟩ ⟨"ENOENT", "gone"⟩ (.error ⟨"EPERM", "denied"⟩)
    rfl rfl (by decide) (by decide) (by decide) rfl (by decide) (by decide)
    (by decide) (by decide) (by decide) (by decide) (by decide) (by decide)

/-! ## Claim C6: token counting never fails -/

/-- Claim C6: `countTokens` always returns a number.  With the encoder
unavailable it returns exactly `ceil(length(text)/4)` (in `Nat` arithmetic,
`(length + 3) / 4`); when the encoder's `encode` call throws on the cleaned
text it falls back to the same estimate; and on the empty string it returns
0 both in fallback mode and in primary mode whenever the encoder tokenizes
the empty string to no tokens. -/
theorem c6_countTokens :
    (∀ text : String, countTokens none text = (text.length + 3) / 4)
    ∧ (∀ (enc : String → Option (List Nat)) (text : String),
        enc (cleanText text) = none →
        countTokens (some enc) text = (text.length + 3) / 4)
    ∧ countTokens none "" = 0
    ∧ (∀ enc : String → Option (List Nat), enc "" = some [] →
        countTokens (some enc) "" = 0) := by
  refine ⟨fun text => rfl, fun enc text h => ?_, rfl, fun enc h => ?_⟩
  · simp [countTokens, h]
  · have hclean : cleanText "" = "" := rfl
    simp [countTokens, hclean, h]

/-! ## Claim C7: the busy rejection -/

/-- Claim C7: a `request-file-list` arriving while a scan is active is
answered with the single `busy` status message; the handler returns with
the loading flag still set (the active scan keeps running) and without
consulting the requested root at all: the reply is identical whatever
scan context, cancellation schedule, root path or directory tree the new
request carries. -/
theorem c7_busy_rejection (ctx ctx2 : ScanCtx) (cab cab2 : Option Nat)
    (root root2 : String) (body body2 : FSDir) (st : AppState)
    (h : st.isLoadingDirectory = true) :
    (requestFileList ctx cab root body st).2 = [busyMsg]
    ∧ (requestFileList ctx cab root body st).1.isLoadingDirectory = true
    ∧ busyMsg = Msg.fps "busy" "Already processing another directory. Please wait."
    ∧ requestFileList ctx cab root body st
        = requestFileList ctx2 cab2 root2 body2 st := by
  refine ⟨?_, ?_, rfl, ?_⟩
  · simp [requestFileList, h]
  · simp [requestFileList, h]
  · simp [requestFileList, h]

/-- Claim C7, witness: the busy rejection at a concrete loading state,
compared across two entirely different requests. -/
theorem c7_busy_rejection_witness :
    (requestFileList exCtx none "/root" exRoot ⟨true, true⟩).2 = [busyMsg]
    ∧ (requestFileList exCtx none "/root" exRoot ⟨true, true⟩).1.isLoadingDirectory = true
    ∧ busyMsg = Msg.fps "busy" "Already processing another directory. Please wait."
    ∧ requestFileList exCtx none "/root" exRoot ⟨true, true⟩
        = requestFileList pngCtx (some 3) "/other" exSubBody ⟨true, true⟩ := by
  exact c7_busy_rejection exCtx pngCtx none (some 3) "/root" "/other" exRoot
    exSubBody ⟨true, true⟩ rfl

/-! ## What any emitted record looks like -/

/-- Any record a chunk-file task emits passed its own ignore check, carries
that relative path, and is an oversized/unreadable skip, a binary stub, or
a normal record whose token count was computed from its content. -/
theorem chunkFileTask_shape (ctx : ScanCtx) (cab : Option Nat) (d r : String)
    (f : FileNode) (clk : Nat) (rec : FileRecord)
    (h : (chunkFileTask ctx cab d r f clk).1 = some rec) :
    ctx.ign (r ++ f.name) = false
    ∧ rec.relativePath = r ++ f.name
    ∧ ((rec.isSkipped = true ∧ rec.isBinary = false ∧ rec.content = ""
          ∧ rec.tokenCount = 0)
       ∨ (rec.isBinary = true ∧ rec.isSkipped = false ∧ rec.content = ""
          ∧ rec.tokenCount = 0)
       ∨ (rec.isBinary = false ∧ rec.isSkipped = false
          ∧ rec.tokenCount = countTokens ctx.encoder rec.content)) := by
  cases ht : tick cab clk with
  | mk ok clk1 =>
    cases ok with
    | false => simp [chunkFileTask, ht] at h
    | true =>
      by_cases hA : (isAppBundlePath (normalizePath (d ++ "/" ++ f.name)) = true ∨
          normalizePath (d ++ "/" ++ f.name) = ctx.appPath) ∨
          startsWithDotDot (r ++ f.name) = true
      · simp [chunkFileTask, ht, hA] at h
      · by_cases hI : ctx.ign (r ++ f.name) = true
        · simp [chunkFileTask, ht, hA, hI] at h
        · refine ⟨by simpa using hI, ?_⟩
          cases hs : f.statResult with
          | error e =>
            simp [chunkFileTask, ht, hA, hI, hs] at h
            subst h
            simp
          | ok sz =>
            cases ht2 : tick cab clk1 with
            | mk ok2 clk2 =>
              cases ok2 with
              | false => simp [chunkFileTask, ht, hA, hI, hs, ht2] at h
              | true =>
                by_cases hsz : sz > MAX_FILE_SIZE
                · simp [chunkFileTask, ht, hA, hI, hs, ht2, hsz] at h
                  subst h
                  simp
                · by_cases hbin : isBinaryFile ctx.binExts
                      (normalizePath (d ++ "/" ++ f.name)) = true
                  · simp [chunkFileTask, ht, hA, hI, hs, ht2, hsz, hbin] at h
                    subst h
                    simp
                  · cases hr : f.readResult with
                    | error e =>
                      simp [chunkFileTask, ht, hA, hI, hs, ht2, hsz, hbin, hr] at h
                      subst h
                      simp
                    | ok content =>
                      cases ht3 : tick cab clk2 with
                      | mk ok3 clk3 =>
                        cases ok3 with
                        | false =>
                          simp [chunkFileTask, ht, hA, hI, hs, ht2, hsz, hbin,
                            hr, ht3] at h
                        | true =>
                          simp [chunkFileTask, ht, hA, hI, hs, ht2, hsz, hbin,
                            hr, ht3] at h
                          subst h
                          simp

/-- Any record the watcher single-file pipeline emits either passed its own
ignore check or reports an I/O error shape; in all cases it carries its
relative path and satisfies the same three-way shape. -/
theorem processSingleFile_shape (ctx : ScanCtx) (full rel : String)
    (stat : Except JsError Nat) (rd : Except JsError String)
    (rec : FileRecord)
    (h : processSingleFile ctx full rel stat rd = some rec) :
    ctx.ign rel = false
    ∧ rec.relativePath = rel
    ∧ ((rec.isSkipped = true ∧ rec.isBinary = false ∧ rec.content = ""
          ∧ rec.tokenCount = 0)
       ∨ (rec.isBinary = true ∧ rec.isSkipped = false ∧ rec.content = ""
          ∧ rec.tokenCount = 0)
       ∨ (rec.isBinary = false ∧ rec.isSkipped = false
          ∧ rec.tokenCount = countTokens ctx.encoder rec.content)) := by
  by_cases hDD : startsWithDotDot rel = true
  · simp [processSingleFile, hDD] at h
  · by_cases hI : ctx.ign rel = true
    · simp [processSingleFile, hDD, hI] at h
    · refine ⟨by simpa using hI, ?_⟩
      cases hs : stat with
      | error e =>
        simp [processSingleFile, hDD, hI, hs] at h
        subst h
        simp
      | ok sz =>
        by_cases hsz : sz > MAX_FILE_SIZE
        · simp [processSingleFile, hDD, hI, hs, hsz] at h
          subst h
          simp
        · by_cases hbin : jsToLower ((extnameOf full).drop 1) ∈ ctx.binExts
          · simp [processSingleFile, hDD, hI, hs, hsz, hbin] at h
            subst h
            simp
          · cases hr : rd with
            | error e =>
              simp [processSingleFile, hDD, hI, hs, hsz, hbin, hr] at h
              subst h
              simp
            | ok content =>
              simp [processSingleFile, hDD, hI, hs, hsz, hbin, hr] at h
              subst h
              simp

/-! ## Propagating a per-record property through the walk -/

/-- A property holding of every record any chunk-file task can emit under
context `ctx`. -/
def TaskRecProp (ctx : ScanCtx) (P : FileRecord → Prop) : Prop :=
  ∀ (cab : Option Nat) (d r : String) (f : FileNode) (clk : Nat)
    (rec : FileRecord),
    (chunkFileTask ctx cab d r f clk).1 = some rec → P rec

theorem runChunkTasks_prop (ctx : ScanCtx) (P : FileRecord → Prop)
    (htask : TaskRecProp ctx P) (cab : Option Nat) (d r : String)
    (fs : List FileNode) :
    ∀ (clk : Nat) (rec : FileRecord),
      some rec ∈ (runChunkTasks ctx cab d r fs clk).1 → P rec := by
  induction fs with
  | nil =>
    intro clk rec h
    simp [runChunkTasks] at h
  | cons f rest ih =>
    intro clk rec h
    cases hf : chunkFileTask ctx cab d r f clk with
    | mk v clk1 =>
      simp only [runChunkTasks, hf] at h
      rcases List.mem_cons.mp h with rfl | h2
      · exact htask cab d r f clk rec (by rw [hf])
      · exact ih clk1 rec h2

theorem scanChunks_recs_prop (ctx : ScanCtx) (P : FileRecord → Prop)
    (htask : TaskRecProp ctx P) (cab : Option Nat) (d r : String)
    (total : Nat) (chs : List (List FileNode)) :
    ∀ (p : Nat) (st : ScanOut), (∀ rec ∈ st.recs, P rec) →
      ∀ rec ∈ (scanChunks ctx cab d r total p chs st).recs, P rec := by
  induction chs with
  | nil => intro p st hst rec h; exact hst rec h
  | cons c rest ih =>
    intro p st hst rec h
    cases ht : tick cab st.clk with
    | mk ok clk1 =>
      cases ok with
      | false =>
        simp only [scanChunks, ht, Bool.not_false, if_true] at h
        exact hst rec h
      | true =>
        cases hq : runChunkTasks ctx cab d r c clk1 with
        | mk outs clk2 =>
          cases ht2 : tick cab clk2 with
          | mk ok2 clk3 =>
            cases ok2 with
            | false =>
              simp only [scanChunks, ht, hq, ht2, Bool.not_false, Bool.not_true,
                Bool.false_eq_true, if_true, if_false] at h
              exact hst rec h
            | true =>
              simp only [scanChunks, ht, hq, ht2, Bool.not_false, Bool.not_true,
                Bool.false_eq_true, if_true, if_false] at h
              refine ih (p + c.length) _ ?_ rec h
              intro rec2 h2
              simp only [List.mem_append] at h2
              rcases h2 with h3 | h3
              · exact hst rec2 h3
              · have h4 := List.mem_filterMap.mp h3
                rcases h4 with ⟨o, ho, hid⟩
                have : o = some rec2 := by
                  cases o with
                  | none => simp at hid
                  | some v => simpa using congrArg some hid
                subst this
                have h5 : some rec2 ∈ (runChunkTasks ctx cab d r c clk1).1 := by
                  rw [hq]
                  exact ho
                exact runChunkTasks_prop ctx P htask cab d r c clk1 rec2 h5

mutual
/-- Every record a directory activation returns satisfies any property all
chunk-file tasks guarantee. -/
theorem scanDir_recs_prop (ctx : ScanCtx) (P : FileRecord → Prop)
    (htask : TaskRecProp ctx P) (cab : Option Nat) (d r : String)
    (body : FSDir) (clk : Nat) :
    ∀ rec ∈ (scanDir ctx cab d r body clk).recs, P rec := by
  intro rec h
  cases ht : tick cab clk with
  | mk ok clk1 =>
    cases ok with
    | false => simp [scanDir, ht] at h
    | true =>
      cases body with
      | readErr e => simp [scanDir, ht] at h
      | entries es =>
        cases ht2 : tick cab clk1 with
        | mk ok2 clk2 =>
          cases ok2 with
          | false => simp [scanDir, ht, ht2] at h
          | true =>
            simp only [scanDir, ht, ht2, Bool.not_false, Bool.not_true,
              Bool.false_eq_true, if_true, if_false] at h
            have hphase := scanDirsPhase_recs_prop ctx P htask cab d r es
              ⟨[], clk2, [], false⟩ (by intro rec2 h2; simp at h2)
            rcases Decidable.em ((scanDirsPhase ctx cab d r es
                ⟨[], clk2, [], false⟩).stopped = true) with hstop | hstop
            · rw [if_pos hstop] at h
              exact hphase rec h
            · rw [if_neg hstop] at h
              exact scanChunks_recs_prop ctx P htask cab d r (filesOf es).length
                (chunksOf (filesOf es)) 0 _ hphase rec h

/-- Every record the directories phase accumulates satisfies any property
all chunk-file tasks guarantee, given the incoming accumulation does. -/
theorem scanDirsPhase_recs_prop (ctx : ScanCtx) (P : FileRecord → Prop)
    (htask : TaskRecProp ctx P) (cab : Option Nat) (d r : String)
    (es : FSList) (st : ScanOut) (hst : ∀ rec ∈ st.recs, P rec) :
    ∀ rec ∈ (scanDirsPhase ctx cab d r es st).recs, P rec := by
  intro rec h
  cases es with
  | nil => exact hst rec h
  | cons e rest =>
    cases e with
    | file f =>
      exact scanDirsPhase_recs_prop ctx P htask cab d r rest st hst rec h
    | dir name body =>
      cases ht : tick cab st.clk with
      | mk ok clk1 =>
        cases ok with
        | false =>
          simp only [scanDirsPhase, ht, Bool.not_false, if_true] at h
          exact hst rec h
        | true =>
          simp only [scanDirsPhase, ht, Bool.not_true, Bool.false_eq_true,
            if_false] at h
          rcases Decidable.em ((isAppBundlePath (normalizePath (d ++ "/" ++ name)) = true ∨
              normalizePath (d ++ "/" ++ name) = ctx.appPath) ∨
              startsWithDotDot (r ++ name) = true) with hA | hA
          · rw [if_pos (by simpa using hA)] at h
            exact scanDirsPhase_recs_prop ctx P htask cab d r rest
              ⟨st.recs, clk1, st.msgs, false⟩ hst rec h
          · rw [if_neg (by simpa using hA)] at h
            rcases Decidable.em (ctx.ign (r ++ name) = true) with hI | hI
            · rw [if_pos hI] at h
              exact scanDirsPhase_recs_prop ctx P htask cab d r rest
                ⟨st.recs, clk1, st.msgs ++ [scanningMsg], false⟩ hst rec h
            · rw [if_neg hI] at h
              have hsub := scanDir_recs_prop ctx P htask cab
                (normalizePath (d ++ "/" ++ name)) (r ++ name ++ "/") body clk1
              cases ht2 : tick cab
                  (scanDir ctx cab (normalizePath (d ++ "/" ++ name))
                    (r ++ name ++ "/") body clk1).clk with
              | mk ok2 clk2 =>
                cases ok2 with
                | false =>
                  simp only [ht2, Bool.not_false, if_true] at h
                  exact hst rec h
                | true =>
                  simp only [ht2, Bool.not_true, Bool.false_eq_true,
                    if_false] at h
                  refine scanDirsPhase_recs_prop ctx P htask cab d r rest _
                    ?_ rec h
                  intro rec2 h2
                  rcases List.mem_append.mp h2 with h3 | h3
                  · exact hst rec2 h3
                  · exact hsub rec2 h3
end

/-! ## Claim C3: ignored paths never surface -/

/-- Claim C3: a path matched by the session ignore ruleset (which never
matches the empty root path) never yields a scan record — every record in
any activation's result passed its own ignore check — and never yields a
watcher event: the chokidar `ignored` predicate rejects it so no add,
change or unlink handler runs, and even the add/change pipeline itself
returns nothing for an ignored relative path. -/
theorem c3_ignored_never_surfaces (ctx : ScanCtx) (cab : Option Nat)
    (d r : String) (body : FSDir) (clk : Nat) (relOf : String → String)
    (p full rel : String) (stat : Except JsError Nat)
    (rd : Except JsError String) (handler : String → List Msg)
    (hroot : ctx.ign "" = false) :
    (∀ rec ∈ (scanDir ctx cab d r body clk).recs,
      ctx.ign rec.relativePath = false)
    ∧ (ctx.ign (relOf p) = true → watcherIgnoredPred ctx relOf p = true)
    ∧ (ctx.ign (relOf p) = true →
        watchEvent (watcherIgnoredPred ctx relOf) handler p = [])
    ∧ (ctx.ign rel = true → processSingleFile ctx full rel stat rd = none) := by
  have hpred : ctx.ign (relOf p) = true → watcherIgnoredPred ctx relOf p = true := by
    intro hI
    have hne : ¬ (relOf p = "") := by
      intro he
      rw [he] at hI
      rw [hroot] at hI
      cases hI
    simp [watcherIgnoredPred, hne, hI]
  refine ⟨?_, hpred, ?_, ?_⟩
  · apply scanDir_recs_prop ctx (fun rec => ctx.ign rec.relativePath = false)
    intro cab2 d2 r2 f clk2 rec hrec
    have hshape := chunkFileTask_shape ctx cab2 d2 r2 f clk2 rec hrec
    rw [hshape.2.1]
    exact hshape.1
  · intro hI
    simp [watchEvent, hpred hI]
  · intro hI
    by_cases hDD : startsWithDotDot rel = true
    · simp [processSingleFile, hDD]
    · simp [processSingleFile, hDD, hI]

/-- A context that hard-ignores the path `secret.txt`. -/
def secretCtx : ScanCtx :=
  { binExts := [], encoder := none, ign := fun s => s == "secret.txt",
    shouldExcl := fun _ => false, appPath := "/opt/pastemax" }

/-- A small file named `secret.txt`. -/
def secretFile : FileNode :=
  { name := "secret.txt", statResult := .ok 3, readResult := .ok "shh" }

/-- A root holding only `secret.txt`. -/
def secretRoot : FSDir := .entries (.cons (.file secretFile) .nil)

/-- Claim C3, witness: with a ruleset matching `secret.txt`, the scan of a
root holding that file emits no record for it, the watcher predicate
rejects it and the pipeline returns nothing for it. -/
theorem c3_ignored_never_surfaces_witness :
    secretCtx.ign "" = false
    ∧ ((∀ rec ∈ (scanDir secretCtx none "/root" "" secretRoot 0).recs,
        secretCtx.ign rec.relativePath = false)
      ∧ (secretCtx.ign ("/root/secret.txt".drop 6) = true →
          watcherIgnoredPred secretCtx (fun q => q.drop 6) "/root/secret.txt" = true)
      ∧ (secretCtx.ign ("/root/secret.txt".drop 6) = true →
          watchEvent (watcherIgnoredPred secretCtx (fun q => q.drop 6))
            onUnlinkHandler "/root/secret.txt" = [])
      ∧ (secretCtx.ign "secret.txt" = true →
          processSingleFile secretCtx "/root/secret.txt" "secret.txt"
            (.ok 3) (.ok "shh") = none)) := by
  constructor
  · decide
  · exact c3_ignored_never_surfaces secretCtx none "/root" "" secretRoot 0
      (fun q => q.drop 6)
      "/root/secret.txt" "/root/secret.txt" "secret.txt" (.ok 3) (.ok "shh")
      onUnlinkHandler (by decide)

/-! ## Claim C8: the record invariant -/

/-- The record invariant of the spec's data model: binary and skipped are
mutually exclusive, a binary or skipped record has empty content, and empty
content always goes with a zero token count. -/
def RecordInv (rec : FileRecord) : Prop :=
  (¬ (rec.isBinary = true ∧ rec.isSkipped = true))
  ∧ ((rec.isBinary = true ∨ rec.isSkipped = true) → rec.content = "")
  ∧ (rec.content = "" → rec.tokenCount = 0)

/-- A three-way record shape entails the invariant, given that the session
token counter maps empty content to zero. -/
theorem recordInv_of_shape (enc : Option (String → Option (List Nat)))
    (rec : FileRecord) (henc : countTokens enc "" = 0)
    (hshape : (rec.isSkipped = true ∧ rec.isBinary = false ∧ rec.content = ""
          ∧ rec.tokenCount = 0)
       ∨ (rec.isBinary = true ∧ rec.isSkipped = false ∧ rec.content = ""
          ∧ rec.tokenCount = 0)
       ∨ (rec.isBinary = false ∧ rec.isSkipped = false
          ∧ rec.tokenCount = countTokens enc rec.content)) :
    RecordInv rec := by
  rcases hshape with ⟨h1, h2, h3, h4⟩ | ⟨h1, h2, h3, h4⟩ | ⟨h1, h2, h3⟩
  · refine ⟨?_, fun _ => h3, fun _ => h4⟩
    intro hc
    rw [h2] at hc
    cases hc.1
  · refine ⟨?_, fun _ => h3, fun _ => h4⟩
    intro hc
    rw [h2] at hc
    cases hc.2
  · refine ⟨?_, fun hc => ?_, fun hc => ?_⟩
    · intro hc
      rw [h1] at hc
      cases hc.1
    · rcases hc with hc | hc
      · rw [h1] at hc
        cases hc
      · rw [h2] at hc
        cases hc
    · rw [h3, hc, henc]

/-- Claim C8: under a token counter that maps empty content to zero (true
of the fallback estimator, and of the tiktoken encoder, which tokenizes ""
to no tokens), every record the scanner walk returns and every record the
watcher pipeline emits satisfies the record invariant: binary and skipped
never both hold, a binary or skipped record has empty content, and empty
content goes with a zero token count. -/
theorem c8_record_invariant (ctx : ScanCtx) (cab : Option Nat)
    (d r full rel : String) (body : FSDir) (clk : Nat)
    (stat : Except JsError Nat) (rd : Except JsError String)
    (henc : countTokens ctx.encoder "" = 0) :
    (∀ rec ∈ (scanDir ctx cab d r body clk).recs, RecordInv rec)
    ∧ (∀ rec : FileRecord, processSingleFile ctx full rel stat rd = some rec →
        RecordInv rec) := by
  constructor
  · apply scanDir_recs_prop ctx RecordInv
    intro cab2 d2 r2 f clk2 rec hrec
    exact recordInv_of_shape ctx.encoder rec henc
      (chunkFileTask_shape ctx cab2 d2 r2 f clk2 rec hrec).2.2
  · intro rec hrec
    exact recordInv_of_shape ctx.encoder rec henc
      (processSingleFile_shape ctx full rel stat rd rec hrec).2.2

/-- Claim C8, witness: the invariant over the concrete mixed scan (a binary
file, an oversized file, an unreadable file and a text file) and over a
concrete watcher record. -/
theorem c8_record_invariant_witness :
    countTokens pngCtx.encoder "" = 0
    ∧ ((∀ rec ∈ (scanDir pngCtx none "/root" ""
          (.entries (.cons (.file pngFile) (.cons (.file bigPng)
            (.cons (.file errFile) (.cons (.file exFileA) .nil))))) 0).recs,
        RecordInv rec)
      ∧ (∀ rec : FileRecord,
          processSingleFile pngCtx "/root/b.png" "b.png" (.ok 10) (.ok "hi")
            = some rec → RecordInv rec)) :=
  ⟨by decide, c8_record_invariant pngCtx none "/root" "" "/root/b.png" "b.png"
    (.entries (.cons (.file pngFile) (.cons (.file bigPng)
      (.cons (.file errFile) (.cons (.file exFileA) .nil))))) 0
    (.ok 10) (.ok "hi") (by decide)⟩

/-! ## Claim C9: the formatter is deterministic -/

/-- Claim C9: `formatContentForCopying` is a pure function of its arguments
— the source performs no I/O, reads no clock and uses no randomness, its
imported helpers being pure (they enter the model as the `FormatterEnv`
parameters) — so two calls with identical arguments return byte-identical
strings; and whenever filtering the file list to the selection leaves
nothing, it returns the literal no-selection message instead of delimited
blocks. -/
theorem c9_format_deterministic (env : FormatterEnv)
    (p1 p2 q : FormatContentParams)
    (heq : p1 = p2)
    (hempty : q.files.filter (fun file => q.selectedFiles.contains file.path)
      = []) :
    formatContentForCopying env p1 = formatContentForCopying env p2
    ∧ formatContentForCopying env q = "No files selected." := by
  constructor
  · rw [heq]
  · have hempty2 : q.files.filter
        (fun file => decide (file.path ∈ q.selectedFiles)) = [] := by
      simpa using hempty
    simp [formatContentForCopying, hempty2, stableSortBy]

/-- A concrete file for the formatter witness. -/
def exData : FileData :=
  { name := "a.txt", path := "/root/a.txt", size := 5, tokenCount := 2,
    content := "hello" }

/-- A formatter environment with trivial helpers. -/
def exEnv : FormatterEnv :=
  { generateAsciiFileTree := fun _ _ => "tree",
    getLanguageFromFilename := fun _ => "text",
    basename := fun s => s,
    isSubPath := fun _ _ => true,
    localeCmp := fun _ _ => 0 }

/-- Formatter arguments whose selection matches nothing on disk. -/
def exParamsEmpty : FormatContentParams :=
  { files := [exData], selectedFiles := ["/root/other.txt"],
    sortOrder := "tokens-desc", includeFileTree := true,
    selectedFolder := some "/root", userInstructions := "do x" }

/-- Claim C9, witness: two identical calls agree, and a selection matching
no file yields the literal no-selection message. -/
theorem c9_format_deterministic_witness :
    exParamsEmpty = exParamsEmpty
    ∧ exParamsEmpty.files.filter
        (fun file => exParamsEmpty.selectedFiles.contains file.path) = []
    ∧ (formatContentForCopying exEnv exParamsEmpty
        = formatContentForCopying exEnv exParamsEmpty
      ∧ formatContentForCopying exEnv exParamsEmpty = "No files selected.") :=
  ⟨rfl, by decide,
    c9_format_deterministic exEnv exParamsEmpty exParamsEmpty exParamsEmpty
      rfl (by decide)⟩
